import Mathlib

/-!
Verification development for the team-cli GraphQL client core
(`internal/gql/gql.go`): the endpoint resolver (`GenerateWSAddr`, the
sub-protocol negotiation string built in `Subscribe`), and the websocket
protocol state machine (`initConnection`, `start`, `process`) together
with the rendezvous coordinator `Subscribe`.

The Go code is embedded shallowly: in-place mutation of `*url.URL`
becomes explicit state passing, the network becomes a script of read
outcomes, goroutine/cancellation effects become explicit events in a
trace, and `panic` (nil-pointer dereference) becomes an explicit
outcome constructor.
-/

namespace TeamCli

/-! ## String helpers mirroring the Go standard library -/

/-- Is `pat` an infix of the character list (Go `strings.Contains` on the
second argument, with the pattern first)? -/
def hasInfixL (pat : List Char) : List Char → Bool
  | [] => pat.isPrefixOf ([] : List Char)
  | c :: rest => pat.isPrefixOf (c :: rest) || hasInfixL pat rest

/-- Go `strings.Contains s pat`. -/
def containsSub (s pat : String) : Bool :=
  hasInfixL pat.data s.data

/-- Replace the first occurrence of `pat` (nonempty) by `rep` in a
character list; Go `strings.Replace` with count 1, nonempty pattern. -/
def replaceFirstL (pat rep : List Char) : List Char → List Char
  | [] => []
  | c :: rest =>
    if pat.isPrefixOf (c :: rest) then rep ++ (c :: rest).drop pat.length
    else c :: replaceFirstL pat rep rest

/-- Go `strings.Replace s pat rep 1`: with an empty pattern the
replacement is inserted in front, otherwise the first occurrence of
`pat` is replaced. -/
def replaceFirst (s pat rep : String) : String :=
  if pat.isEmpty then rep ++ s
  else String.mk (replaceFirstL pat.data rep.data s.data)

/-- Go `(*url.URL).Hostname()`: the host with any trailing port
stripped.  (The bracketed IPv6 form does not occur for the endpoints in
scope and is not modelled.) -/
def hostnameOf (host : String) : String :=
  String.mk (host.data.takeWhile (fun c => c ≠ ':'))

/-! ## URL model and `GenerateWSAddr` (gql.go lines 184-198)

`url.URL` is modelled by the three components the function touches.  The
Go function mutates its `*url.URL` argument in place; the embedding
returns the rendered address together with the final state of that URL
value. -/

structure URL where
  scheme : String
  host : String
  path : String
  deriving DecidableEq, Repr

/-- Does the host carry the AWS AppSync managed-gateway naming pattern
(gql.go line 185)? -/
def isAppsyncHost (host : String) : Bool :=
  containsSub host ".appsync-api." && containsSub host ".amazonaws."

/-- The final state of the `*url.URL` after `GenerateWSAddr` ran: host
rewritten or path suffixed, then the scheme mapped (gql.go lines
185-195). -/
def generateWSAddrState (u : URL) : URL :=
  let u1 :=
    if isAppsyncHost u.host then
      { u with host := replaceFirst u.host ".appsync-api." ".appsync-realtime-api." }
    else
      { u with path := u.path ++ "/realtime" }
  if u1.scheme = "https" then { u1 with scheme := "wss" }
  else { u1 with scheme := "ws" }

/-- `(*url.URL).String()` for the scheme/host/path fragment in scope. -/
def urlString (u : URL) : String :=
  u.scheme ++ "://" ++ u.host ++ u.path

/-- `GenerateWSAddr` (gql.go lines 184-198): returns the rendered
realtime address and, because the Go function mutates its argument, the
URL value the caller's `*url.URL` holds afterwards. -/
def GenerateWSAddr (u : URL) : String × URL :=
  let u1 := generateWSAddrState u
  (urlString u1, u1)

/-! ## Sub-protocol negotiation string (gql.go lines 121-135)

`Subscribe` builds `authExt = map[string]string{"host": u.Hostname(),
"Authorization": accessToken}`, marshals it with `json.Marshal`
(which serializes string maps with byte-wise sorted keys, so
`Authorization` precedes `host`), base64-encodes the bytes with
`base64.URLEncoding` and removes the padding with
`strings.ReplaceAll(s, "=", "")`, prefixing the literal tag
`header-`.  Go strings are byte sequences; bytes are modelled as `Nat`
values below 256. -/

/-- The byte sequence of an ASCII string literal. -/
def strBytes (s : String) : List Nat :=
  s.data.map Char.toNat

/-- The `base64.URLEncoding` alphabet of Go's `encoding/base64`. -/
def b64Alphabet : List Char :=
  "ABCDEFGHIJKLMNOPQRSTUVWXYZabcdefghijklmnopqrstuvwxyz0123456789-_".data

/-- Character for a 6-bit group. -/
def b64Char (n : Nat) : Char :=
  b64Alphabet.getD n 'A'

/-- Go `base64.URLEncoding.EncodeToString`: standard base64 over the URL
alphabet, padded with `=` to a multiple of four characters. -/
def b64EncPad : List Nat → List Char
  | [] => []
  | [a] => [b64Char (a / 4), b64Char (a % 4 * 16), '=', '=']
  | [a, b] => [b64Char (a / 4), b64Char (a % 4 * 16 + b / 16), b64Char (b % 16 * 4), '=']
  | a :: b :: c :: rest =>
    b64Char (a / 4) :: b64Char (a % 4 * 16 + b / 16) ::
      b64Char (b % 16 * 4 + c / 64) :: b64Char (c % 64) :: b64EncPad rest

/-- Unpadded base64url (Go `base64.RawURLEncoding`), the spec's
reading of the encoding. -/
def b64EncRaw : List Nat → List Char
  | [] => []
  | [a] => [b64Char (a / 4), b64Char (a % 4 * 16)]
  | [a, b] => [b64Char (a / 4), b64Char (a % 4 * 16 + b / 16), b64Char (b % 16 * 4)]
  | a :: b :: c :: rest =>
    b64Char (a / 4) :: b64Char (a % 4 * 16 + b / 16) ::
      b64Char (b % 16 * 4 + c / 64) :: b64Char (c % 64) :: b64EncRaw rest

/-- Go `strings.ReplaceAll s "=" ""`: every `=` is removed. -/
def stripEq (s : List Char) : List Char :=
  s.filter (fun c => c ≠ '=')

/-- 6-bit value of a base64url character. -/
def b64Val (c : Char) : Option Nat :=
  b64Alphabet.findIdx? (fun a => a = c)

/-- Decoder for unpadded base64url text. -/
def b64Dec : List Char → Option (List Nat)
  | [] => some []
  | [_] => none
  | [c1, c2] =>
    match b64Val c1, b64Val c2 with
    | some a, some b => some [a * 4 + b / 16]
    | _, _ => none
  | [c1, c2, c3] =>
    match b64Val c1, b64Val c2, b64Val c3 with
    | some a, some b, some c => some [a * 4 + b / 16, b % 16 * 16 + c / 4]
    | _, _, _ => none
  | c1 :: c2 :: c3 :: c4 :: rest =>
    match b64Val c1, b64Val c2, b64Val c3, b64Val c4, b64Dec rest with
    | some a, some b, some c, some d, some bs =>
      some ((a * 4 + b / 16) :: (b % 16 * 16 + c / 4) :: (c % 4 * 64 + d) :: bs)
    | _, _, _, _, _ => none

/-- Lowercase hex digit byte, as used by Go's JSON encoder. -/
def hexDigit (n : Nat) : Nat :=
  if n < 10 then 48 + n else 87 + n

/-- Hex digit value (accepting both cases). -/
def hexVal (b : Nat) : Option Nat :=
  if 48 ≤ b ∧ b ≤ 57 then some (b - 48)
  else if 97 ≤ b ∧ b ≤ 102 then some (b - 87)
  else if 65 ≤ b ∧ b ≤ 70 then some (b - 55)
  else none

/-- Go `encoding/json` handling of one ASCII byte (below 0x80): quote,
backslash, newline, carriage return and tab get two-byte escapes; other
control bytes and (with the default HTML escaping) the bytes of
lower-than, greater-than and ampersand become lowercase u-escapes;
everything else passes through. -/
def escByte (b : Nat) : List Nat :=
  if b = 34 then [92, 34]
  else if b = 92 then [92, 92]
  else if b = 10 then [92, 110]
  else if b = 13 then [92, 114]
  else if b = 9 then [92, 116]
  else if b < 32 ∨ b = 60 ∨ b = 62 ∨ b = 38 then
    [92, 117, 48, 48, hexDigit (b / 16), hexDigit (b % 16)]
  else [b]

/-- The bytes Go's encoder writes for an invalid UTF-8 byte: the
literal text of the lowercase escape of the replacement character. -/
def replEsc : List Nat :=
  [92, 117, 102, 102, 102, 100]

/-- The literal escape text the encoder writes for U+2028. -/
def u2028Esc : List Nat :=
  [92, 117, 50, 48, 50, 56]

/-- The literal escape text the encoder writes for U+2029. -/
def u2029Esc : List Nat :=
  [92, 117, 50, 48, 50, 57]

/-- Is the byte a UTF-8 continuation byte (0x80..0xBF)? -/
def isCont (b : Nat) : Bool :=
  decide (128 ≤ b ∧ b ≤ 191)

/-- Acceptable range for the byte after a multi-byte lead, as in Go's
`unicode/utf8` accept table: lead 0xE0 narrows to 0xA0..0xBF, 0xED to
0x80..0x9F (no surrogates), 0xF0 to 0x90..0xBF, 0xF4 to 0x80..0x8F; any
other lead takes a plain continuation byte. -/
def accept2 (lead c : Nat) : Bool :=
  if lead = 224 then decide (160 ≤ c ∧ c ≤ 191)
  else if lead = 237 then decide (128 ≤ c ∧ c ≤ 159)
  else if lead = 240 then decide (144 ≤ c ∧ c ≤ 191)
  else if lead = 244 then decide (128 ≤ c ∧ c ≤ 143)
  else isCont c

/-- Go `encoding/json` string escaping over the UTF-8 bytes of a Go
string: ASCII bytes go through `escByte`; a well-formed multi-byte
sequence passes through unchanged except U+2028/U+2029, which become
their literal u-escapes; any byte that does not start a well-formed
sequence (stray continuation, overlong 0xC0/0xC1, out-of-range lead, or
a lead whose continuation bytes are missing or invalid — Go's
`DecodeRuneInString` then yields `RuneError` with size 1) is replaced
by the escape of the replacement character and decoding resumes at the
next byte.  The list patterns spell out the short tails so every arm
has the lookahead it needs. -/
def escBytes : List Nat → List Nat
  | [] => []
  | [b] => if b < 128 then escByte b else replEsc
  | [b, c1] =>
    if b < 128 then escByte b ++ escBytes [c1]
    else if 194 ≤ b ∧ b ≤ 223 then
      if isCont c1 then [b, c1] else replEsc ++ escBytes [c1]
    else replEsc ++ escBytes [c1]
  | [b, c1, c2] =>
    if b < 128 then escByte b ++ escBytes [c1, c2]
    else if 194 ≤ b ∧ b ≤ 223 then
      if isCont c1 then b :: c1 :: escBytes [c2]
      else replEsc ++ escBytes [c1, c2]
    else if 224 ≤ b ∧ b ≤ 239 then
      if accept2 b c1 ∧ isCont c2 then
        if b = 226 ∧ c1 = 128 ∧ c2 = 168 then u2028Esc
        else if b = 226 ∧ c1 = 128 ∧ c2 = 169 then u2029Esc
        else [b, c1, c2]
      else replEsc ++ escBytes [c1, c2]
    else replEsc ++ escBytes [c1, c2]
  | b :: c1 :: c2 :: c3 :: rest =>
    if b < 128 then escByte b ++ escBytes (c1 :: c2 :: c3 :: rest)
    else if 194 ≤ b ∧ b ≤ 223 then
      if isCont c1 then b :: c1 :: escBytes (c2 :: c3 :: rest)
      else replEsc ++ escBytes (c1 :: c2 :: c3 :: rest)
    else if 224 ≤ b ∧ b ≤ 239 then
      if accept2 b c1 ∧ isCont c2 then
        if b = 226 ∧ c1 = 128 ∧ c2 = 168 then u2028Esc ++ escBytes (c3 :: rest)
        else if b = 226 ∧ c1 = 128 ∧ c2 = 169 then u2029Esc ++ escBytes (c3 :: rest)
        else b :: c1 :: c2 :: escBytes (c3 :: rest)
      else replEsc ++ escBytes (c1 :: c2 :: c3 :: rest)
    else if 240 ≤ b ∧ b ≤ 244 then
      if accept2 b c1 ∧ isCont c2 ∧ isCont c3 then
        b :: c1 :: c2 :: c3 :: escBytes rest
      else replEsc ++ escBytes (c1 :: c2 :: c3 :: rest)
    else replEsc ++ escBytes (c1 :: c2 :: c3 :: rest)

/-- Is the byte list well-formed UTF-8?  Mirrors the sequence structure
`escBytes` accepts; on input satisfying this, the encoder substitutes
nothing and the sub-protocol round-trip is exact. -/
def isUtf8 : List Nat → Bool
  | [] => true
  | [b] => decide (b < 128)
  | [b, c1] =>
    if b < 128 then isUtf8 [c1]
    else if 194 ≤ b ∧ b ≤ 223 then isCont c1
    else false
  | [b, c1, c2] =>
    if b < 128 then isUtf8 [c1, c2]
    else if 194 ≤ b ∧ b ≤ 223 then isCont c1 && isUtf8 [c2]
    else if 224 ≤ b ∧ b ≤ 239 then accept2 b c1 && isCont c2
    else false
  | b :: c1 :: c2 :: c3 :: rest =>
    if b < 128 then isUtf8 (c1 :: c2 :: c3 :: rest)
    else if 194 ≤ b ∧ b ≤ 223 then isCont c1 && isUtf8 (c2 :: c3 :: rest)
    else if 224 ≤ b ∧ b ≤ 239 then accept2 b c1 && isCont c2 && isUtf8 (c3 :: rest)
    else if 240 ≤ b ∧ b ≤ 244 then
      accept2 b c1 && isCont c2 && isCont c3 && isUtf8 rest
    else false

/-- `json.Marshal` of the two-key string map `authExt` built in
`Subscribe` (gql.go lines 121-124, 130): keys are emitted sorted,
`Authorization` before `host`, each value JSON-escaped.  The shape is
right-nested so that each string body is directly followed by its
closing quote and the following literal. -/
def serializeAuth (host token : List Nat) : List Nat :=
  strBytes "\x7b\"Authorization\":\"" ++
    (escBytes token ++
      (34 :: (strBytes ",\"host\":\"" ++ (escBytes host ++ (34 :: [125])))))

/-- The sub-protocol negotiation string as the code builds it (gql.go
line 135): `header-` then the padded URL base64 with every `=`
removed. -/
def subprotocolCode (host token : List Nat) : List Char :=
  "header-".data ++ stripEq (b64EncPad (serializeAuth host token))

/-- The sub-protocol string as the spec words it: `header-` then
unpadded base64url of the canonical JSON. -/
def subprotocolSpec (host token : List Nat) : List Char :=
  "header-".data ++ b64EncRaw (serializeAuth host token)

/-- Consume an exact byte literal. -/
def dropLit : List Nat → List Nat → Option (List Nat)
  | [], s => some s
  | _ :: _, [] => none
  | p :: ps, b :: bs => if b = p then dropLit ps bs else none

mutual

/-- Parse a JSON string body up to (and consuming) the closing quote,
undoing the escapes `escByte` can emit; returns the decoded bytes and
the remainder.  u-escapes are decoded for code points below 0x80, the
only ones the encoder produces. -/
def parseJString : List Nat → Option (List Nat × List Nat)
  | [] => none
  | b :: rest =>
    if b = 34 then some ([], rest)
    else if b = 92 then parseJEscape rest
    else (parseJString rest).map (fun p => (b :: p.1, p.2))

/-- Decode one escape (the byte after a backslash) and continue. -/
def parseJEscape : List Nat → Option (List Nat × List Nat)
  | [] => none
  | e :: rest2 =>
    if e = 34 then (parseJString rest2).map (fun p => (34 :: p.1, p.2))
    else if e = 92 then (parseJString rest2).map (fun p => (92 :: p.1, p.2))
    else if e = 110 then (parseJString rest2).map (fun p => (10 :: p.1, p.2))
    else if e = 114 then (parseJString rest2).map (fun p => (13 :: p.1, p.2))
    else if e = 116 then (parseJString rest2).map (fun p => (9 :: p.1, p.2))
    else if e = 117 then parseJHex rest2
    else none

/-- Decode the four hex digits of a u-escape to the UTF-8 bytes of the
named code point and continue.  Surrogate code points (which the
encoder never emits on its own) are rejected. -/
def parseJHex : List Nat → Option (List Nat × List Nat)
  | h1 :: h2 :: h3 :: h4 :: rest3 =>
    match hexVal h1, hexVal h2, hexVal h3, hexVal h4 with
    | some a, some b2, some c, some d =>
      let v := ((a * 16 + b2) * 16 + c) * 16 + d
      if v < 128 then (parseJString rest3).map (fun p => (v :: p.1, p.2))
      else if v < 2048 then
        (parseJString rest3).map
          (fun p => ((192 + v / 64) :: (128 + v % 64) :: p.1, p.2))
      else if 55296 ≤ v ∧ v ≤ 57343 then none
      else
        (parseJString rest3).map
          (fun p => ((224 + v / 4096) :: (128 + v / 64 % 64) :: (128 + v % 64) ::
            p.1, p.2))
    | _, _, _, _ => none
  | _ => none

end

/-- Parse the canonical auth JSON object back into `(host, token)`. -/
def parseAuth (bs : List Nat) : Option (List Nat × List Nat) :=
  match dropLit (strBytes "\x7b\"Authorization\":\"") bs with
  | none => none
  | some s1 =>
    match parseJString s1 with
    | none => none
    | some (token, s2) =>
      match dropLit (strBytes ",\"host\":\"") s2 with
      | none => none
      | some s3 =>
        match parseJString s3 with
        | none => none
        | some (host, s4) =>
          match s4 with
          | [125] => some (host, token)
          | _ => none

/-- Decode a sub-protocol string: strip the `header-` tag,
base64url-decode the remainder, parse the JSON map. -/
def decodeSubprotocol (s : List Char) : Option (List Nat × List Nat) :=
  if "header-".data.isPrefixOf s then
    match b64Dec (s.drop 7) with
    | none => none
    | some bs => parseAuth bs
  else none

/-! ## Protocol state machine and rendezvous coordinator

The wire unit is `wsMessage` (gql.go lines 23-27) with a `Payload`
(lines 29-33); in Go `Payload` sits behind a nillable pointer, hence
`Option Payload` here, and dereferencing an absent payload is the
explicit outcome `panicked`.  The network is a script of read
outcomes: a message, a plain read failure (deadline, peer close), or a
read failure caused by the cancellation watcher closing the connection
(gql.go lines 148-153) — the close that interrupts the read is recorded
as an event.  Writes and the dial are modelled by success flags, and
reads past the end of the script fail (the rolling read deadline fires
on a silent peer). -/

structure Payload where
  data : String := ""
  ext : List (String × String) := []
  errors : List String := []
  deriving DecidableEq, Repr

structure WsMessage where
  type : String
  id : String := ""
  payload : Option Payload := none
  deriving DecidableEq, Repr

/-- One read outcome on the websocket. -/
inductive NetEvent
  | msg (m : WsMessage)
  | readErr
  | cancelClose
  deriving DecidableEq, Repr

/-- The context value handed to a callback: the operation's cancellable
context, or a fresh `context.Background()`. -/
inductive Ctx
  | background
  | operation (cancelled : Bool)
  deriving DecidableEq, Repr

/-- Is cancellation of the rendezvous observable through this context? -/
def Ctx.isCancelled : Ctx → Bool
  | .background => false
  | .operation c => c

/-- Observable events of one `Subscribe` execution, in order. -/
inductive Ev
  | sentMsg (m : WsMessage)
  | startAckObserved
  | triggerInvoked
  | processEntered
  | handlerCalled (c : Ctx) (p : Payload)
  | closedConn
  deriving DecidableEq, Repr

/-- The `connection_init` message (gql.go line 201): no id, no
payload. -/
def initMsg : WsMessage :=
  { type := "connection_init" }

/-- The `start` message (gql.go lines 233-242): the subscription's
correlation id, the double-encoded subscription document as the data
field, and the auth extension. -/
def startMsg (reqID encSub : String) (authExt : List (String × String)) : WsMessage :=
  { type := "start", id := reqID
    payload := some { data := encSub, ext := authExt, errors := [] } }

inductive InitExit
  | ack
  | connErr (p : Option Payload)
  | readFail
  | sendFail
  deriving DecidableEq, Repr

/-- Read loop of `initConnection` (gql.go lines 205-219): a
`connection_ack` succeeds, a `connection_error` is fatal (its payload is
only formatted, never dereferenced), anything else is logged and the
loop continues.  Returns the exit, the unread remainder of the script
and the events emitted (a cancellation-triggered close). -/
def initConnectionLoop : List NetEvent → InitExit × List NetEvent × List Ev
  | [] => (.readFail, [], [])
  | .readErr :: rest => (.readFail, rest, [])
  | .cancelClose :: rest => (.readFail, rest, [.closedConn])
  | .msg m :: rest =>
    if m.type = "connection_ack" then (.ack, rest, [])
    else if m.type = "connection_error" then (.connErr m.payload, rest, [])
    else initConnectionLoop rest

/-- `initConnection` (gql.go lines 200-220): send `connection_init`,
then run the read loop. -/
def initConnection (sendOk : Bool) (script : List NetEvent) :
    InitExit × List NetEvent × List Ev :=
  if sendOk then
    match initConnectionLoop script with
    | (e, rest, tr) => (e, rest, Ev.sentMsg initMsg :: tr)
  else (.sendFail, script, [])

inductive StartExit
  | ok
  | subErr (errs : List String)
  | panicked
  | readFail
  | sendFail
  deriving DecidableEq, Repr

/-- Read loop of `start` (gql.go lines 246-272): keep-alives are
skipped; an `error` message iterates `pkt.Payload.Errors` — a nil
pointer dereference when the payload is absent — and is fatal; a
`start_ack` succeeds only with the matching correlation id, otherwise
it is logged and skipped; anything else is logged and skipped. -/
def startLoop (reqID : String) : List NetEvent → StartExit × List NetEvent × List Ev
  | [] => (.readFail, [], [])
  | .readErr :: rest => (.readFail, rest, [])
  | .cancelClose :: rest => (.readFail, rest, [.closedConn])
  | .msg m :: rest =>
    if m.type = "ka" then startLoop reqID rest
    else if m.type = "error" then
      match m.payload with
      | none => (.panicked, rest, [])
      | some p => (.subErr p.errors, rest, [])
    else if m.type = "start_ack" then
      if m.id = reqID then (.ok, rest, [.startAckObserved])
      else startLoop reqID rest
    else startLoop reqID rest

/-- `start` (gql.go lines 222-273): send the `start` message, then run
the read loop.  Marshalling of the opaque query document is represented
by the opaque `encSub` string. -/
def start (reqID encSub : String) (authExt : List (String × String))
    (sendOk : Bool) (script : List NetEvent) :
    StartExit × List NetEvent × List Ev :=
  if sendOk then
    match startLoop reqID script with
    | (e, rest, tr) => (e, rest, Ev.sentMsg (startMsg reqID encSub authExt) :: tr)
  else (.sendFail, script, [])

inductive ProcExit
  | done
  | handlerErr (e : String)
  | streamErr (errs : List String)
  | panicked
  | readFail
  deriving DecidableEq, Repr

/-- `process` (gql.go lines 275-314): keep-alives skipped; an `error`
message is fatal (nil payload dereference panics, as in `startLoop`); a
`data` message with a mismatched id is logged and skipped; a matching
`data` message first has its payload formatted for the debug log (a nil
payload panics at gql.go line 298) and is then dispatched to `onData`
with a fresh `context.Background()`; a handler error is fatal, a false
continuation flag ends the loop normally. -/
def process (reqID : String) (onData : Payload → Bool × Option String) :
    List NetEvent → ProcExit × List Ev
  | [] => (.readFail, [])
  | .readErr :: _ => (.readFail, [])
  | .cancelClose :: _ => (.readFail, [.closedConn])
  | .msg m :: rest =>
    if m.type = "ka" then process reqID onData rest
    else if m.type = "error" then
      match m.payload with
      | none => (.panicked, [])
      | some p => (.streamErr p.errors, [])
    else if m.type = "data" then
      if m.id = reqID then
        match m.payload with
        | none => (.panicked, [])
        | some p =>
          match onData p with
          | (_, some e) => (.handlerErr e, [.handlerCalled .background p])
          | (true, none) =>
            match process reqID onData rest with
            | (x, tr) => (x, Ev.handlerCalled .background p :: tr)
          | (false, none) => (.done, [.handlerCalled .background p])
      else process reqID onData rest
    else process reqID onData rest

/-- Result of one `Subscribe` call, by return path. -/
inductive SubResult
  | ok
  | invalidEndpoint
  | connectFailed
  | initSendFailed
  | startSendFailed
  | handshakeRejected (p : Option Payload)
  | subscriptionRejected (errs : List String)
  | streamError (errs : List String)
  | readFailed
  | triggerFailed (e : String)
  | handlerFailed (e : String)
  | panicked
  deriving DecidableEq, Repr

/-- `Subscribe` (gql.go lines 105-182), as a function of the parse
result of the endpoint, the dial/write outcomes, the trigger's result,
the data handler and the read script.  The correlation id `reqID`
stands for the fresh `uuid.New()`.  Deferred functions run on every
return (and during a panic unwind), so `ws.Close()` is emitted on every
path after a successful dial; the watcher goroutine's extra close is
the `closedConn` emitted by a `cancelClose` read outcome.  The deferred
`cancel()` fires after the deferred close, so the watcher's own close
triggered by teardown lands after the extent modelled here. -/
def Subscribe (endpoint : Option URL) (accessToken reqID encSub : String)
    (dialOk sendInitOk sendStartOk : Bool)
    (onReadyErr : Option String)
    (onData : Payload → Bool × Option String)
    (script : List NetEvent) : SubResult × List Ev :=
  match endpoint with
  | none => (.invalidEndpoint, [])
  | some u =>
    let authExt := [("host", hostnameOf u.host), ("Authorization", accessToken)]
    if dialOk then
      match initConnection sendInitOk script with
      | (.sendFail, _, tr1) => (.initSendFailed, tr1 ++ [.closedConn])
      | (.connErr p, _, tr1) => (.handshakeRejected p, tr1 ++ [.closedConn])
      | (.readFail, _, tr1) => (.readFailed, tr1 ++ [.closedConn])
      | (.ack, rest1, tr1) =>
        match start reqID encSub authExt sendStartOk rest1 with
        | (.sendFail, _, tr2) => (.startSendFailed, tr1 ++ tr2 ++ [.closedConn])
        | (.subErr errs, _, tr2) =>
          (.subscriptionRejected errs, tr1 ++ tr2 ++ [.closedConn])
        | (.panicked, _, tr2) => (.panicked, tr1 ++ tr2 ++ [.closedConn])
        | (.readFail, _, tr2) => (.readFailed, tr1 ++ tr2 ++ [.closedConn])
        | (.ok, rest2, tr2) =>
          match onReadyErr with
          | some e =>
            (.triggerFailed e, tr1 ++ tr2 ++ [.triggerInvoked, .closedConn])
          | none =>
            match process reqID onData rest2 with
            | (x, tr3) =>
              let tr := tr1 ++ tr2 ++ [Ev.triggerInvoked, Ev.processEntered] ++
                tr3 ++ [Ev.closedConn]
              match x with
              | .done => (.ok, tr)
              | .handlerErr e => (.handlerFailed e, tr)
              | .streamErr errs => (.streamError errs, tr)
              | .panicked => (.panicked, tr)
              | .readFail => (.readFailed, tr)
    else (.connectFailed, [])

/-! ## Helper lemmas on the loop traces -/

theorem split_of_single_occ {α : Type} {a : α} :
    ∀ (xs ys l1 l2 : List α), a ∉ xs → a ∉ ys →
      xs ++ a :: ys = l1 ++ a :: l2 → xs = l1 ∧ ys = l2
  | [], ys, [], l2, _, _, h => by simpa using h
  | [], ys, b :: l1, l2, _, hys, h => by
    simp only [List.nil_append, List.cons_append, List.cons.injEq] at h
    exact absurd (h.2 ▸ List.mem_append_right l1 (List.mem_cons_self a l2)) hys
  | x :: xs, ys, [], l2, hxs, _, h => by
    simp only [List.cons_append, List.nil_append, List.cons.injEq] at h
    exact absurd (h.1 ▸ List.mem_cons_self x xs) hxs
  | x :: xs, ys, b :: l1, l2, hxs, hys, h => by
    simp only [List.cons_append, List.cons.injEq] at h
    have ih := split_of_single_occ xs ys l1 l2 (fun hm => hxs (List.mem_cons_of_mem x hm)) hys h.2
    exact ⟨by rw [h.1, ih.1], ih.2⟩

theorem initConnectionLoop_trace :
    ∀ s : List NetEvent,
      (initConnectionLoop s).2.2 = [] ∨ (initConnectionLoop s).2.2 = [Ev.closedConn]
  | [] => Or.inl rfl
  | .readErr :: _ => Or.inl rfl
  | .cancelClose :: _ => Or.inr rfl
  | .msg m :: rest => by
    by_cases h1 : m.type = "connection_ack"
    · simp [initConnectionLoop, h1]
    · by_cases h2 : m.type = "connection_error"
      · simp [initConnectionLoop, h1, h2]
      · simpa [initConnectionLoop, h1, h2] using initConnectionLoop_trace rest

theorem initConnectionLoop_ack_trace :
    ∀ s : List NetEvent, (initConnectionLoop s).1 = InitExit.ack →
      (initConnectionLoop s).2.2 = []
  | [] => by simp [initConnectionLoop]
  | .readErr :: _ => by simp [initConnectionLoop]
  | .cancelClose :: _ => by simp [initConnectionLoop]
  | .msg m :: rest => by
    by_cases h1 : m.type = "connection_ack"
    · simp [initConnectionLoop, h1]
    · by_cases h2 : m.type = "connection_error"
      · simp [initConnectionLoop, h1, h2]
      · simpa [initConnectionLoop, h1, h2] using initConnectionLoop_ack_trace rest

theorem initConnectionLoop_noCancel :
    ∀ s : List NetEvent, NetEvent.cancelClose ∉ s →
      (initConnectionLoop s).2.2 = [] ∧ NetEvent.cancelClose ∉ (initConnectionLoop s).2.1
  | [], _ => ⟨rfl, by simp [initConnectionLoop]⟩
  | .readErr :: rest, h => by
    simp only [List.mem_cons, not_or] at h
    exact ⟨rfl, h.2⟩
  | .cancelClose :: rest, h => by simp at h
  | .msg m :: rest, h => by
    simp only [List.mem_cons, not_or] at h
    by_cases h1 : m.type = "connection_ack"
    · simpa [initConnectionLoop, h1] using h.2
    · by_cases h2 : m.type = "connection_error"
      · simpa [initConnectionLoop, h1, h2] using h.2
      · simpa [initConnectionLoop, h1, h2] using initConnectionLoop_noCancel rest h.2

theorem startLoop_trace (r : String) :
    ∀ s : List NetEvent,
      (startLoop r s).2.2 = [] ∨ (startLoop r s).2.2 = [Ev.closedConn] ∨
        (startLoop r s).2.2 = [Ev.startAckObserved]
  | [] => Or.inl rfl
  | .readErr :: _ => Or.inl rfl
  | .cancelClose :: _ => Or.inr (Or.inl rfl)
  | .msg m :: rest => by
    by_cases h1 : m.type = "ka"
    · simpa [startLoop, h1] using startLoop_trace r rest
    · by_cases h2 : m.type = "error"
      · cases hp : m.payload <;> simp [startLoop, h1, h2, hp]
      · by_cases h3 : m.type = "start_ack"
        · by_cases h4 : m.id = r
          · simp [startLoop, h1, h2, h3, h4]
          · simpa [startLoop, h1, h2, h3, h4] using startLoop_trace r rest
        · simpa [startLoop, h1, h2, h3] using startLoop_trace r rest

theorem startLoop_ok_trace (r : String) :
    ∀ s : List NetEvent, (startLoop r s).1 = StartExit.ok →
      (startLoop r s).2.2 = [Ev.startAckObserved]
  | [] => by simp [startLoop]
  | .readErr :: _ => by simp [startLoop]
  | .cancelClose :: _ => by simp [startLoop]
  | .msg m :: rest => by
    by_cases h1 : m.type = "ka"
    · simpa [startLoop, h1] using startLoop_ok_trace r rest
    · by_cases h2 : m.type = "error"
      · cases hp : m.payload <;> simp [startLoop, h1, h2, hp]
      · by_cases h3 : m.type = "start_ack"
        · by_cases h4 : m.id = r
          · simp [startLoop, h1, h2, h3, h4]
          · simpa [startLoop, h1, h2, h3, h4] using startLoop_ok_trace r rest
        · simpa [startLoop, h1, h2, h3] using startLoop_ok_trace r rest

theorem startLoop_noCancel (r : String) :
    ∀ s : List NetEvent, NetEvent.cancelClose ∉ s →
      Ev.closedConn ∉ (startLoop r s).2.2 ∧ NetEvent.cancelClose ∉ (startLoop r s).2.1
  | [], _ => ⟨by simp [startLoop], by simp [startLoop]⟩
  | .readErr :: rest, h => by
    simp only [List.mem_cons, not_or] at h
    exact ⟨by simp [startLoop], h.2⟩
  | .cancelClose :: rest, h => by simp at h
  | .msg m :: rest, h => by
    simp only [List.mem_cons, not_or] at h
    by_cases h1 : m.type = "ka"
    · simpa [startLoop, h1] using startLoop_noCancel r rest h.2
    · by_cases h2 : m.type = "error"
      · cases hp : m.payload <;> simpa [startLoop, h1, h2, hp] using h.2
      · by_cases h3 : m.type = "start_ack"
        · by_cases h4 : m.id = r
          · simpa [startLoop, h1, h2, h3, h4] using h.2
          · simpa [startLoop, h1, h2, h3, h4] using startLoop_noCancel r rest h.2
        · simpa [startLoop, h1, h2, h3] using startLoop_noCancel r rest h.2

theorem process_trace (r : String) (f : Payload → Bool × Option String) :
    ∀ s : List NetEvent, ∀ e ∈ (process r f s).2,
      (∃ p, e = Ev.handlerCalled Ctx.background p) ∨ e = Ev.closedConn
  | [] => by simp [process]
  | .readErr :: _ => by simp [process]
  | .cancelClose :: _ => by simp [process]
  | .msg m :: rest => by
    by_cases h1 : m.type = "ka"
    · simpa [process, h1] using process_trace r f rest
    · by_cases h2 : m.type = "error"
      · cases hp : m.payload <;> simp [process, h1, h2, hp]
      · by_cases h3 : m.type = "data"
        · by_cases h4 : m.id = r
          · cases hp : m.payload with
            | none => simp [process, h1, h2, h3, h4, hp]
            | some p =>
              rcases hf : f p with ⟨cont, err⟩
              cases err with
              | some e => simp [process, h1, h2, h3, h4, hp, hf]
              | none =>
                cases cont with
                | true =>
                  have ih := process_trace r f rest
                  rcases hrec : process r f rest with ⟨x, tr⟩
                  rw [hrec] at ih
                  intro e he
                  simp only [process, h1, h2, h3, h4, hp, hf, hrec] at he
                  simp at he
                  rcases he with he | he
                  · exact Or.inl ⟨p, he⟩
                  · exact ih e he
                | false => simp [process, h1, h2, h3, h4, hp, hf]
          · simpa [process, h1, h2, h3, h4] using process_trace r f rest
        · simpa [process, h1, h2, h3] using process_trace r f rest

theorem process_count_close (r : String) (f : Payload → Bool × Option String) :
    ∀ s : List NetEvent, (process r f s).2.count Ev.closedConn ≤ 1
  | [] => by simp [process]
  | .readErr :: _ => by simp [process]
  | .cancelClose :: _ => by simp [process]
  | .msg m :: rest => by
    by_cases h1 : m.type = "ka"
    · simpa [process, h1] using process_count_close r f rest
    · by_cases h2 : m.type = "error"
      · cases hp : m.payload <;> simp [process, h1, h2, hp]
      · by_cases h3 : m.type = "data"
        · by_cases h4 : m.id = r
          · cases hp : m.payload with
            | none => simp [process, h1, h2, h3, h4, hp]
            | some p =>
              rcases hf : f p with ⟨cont, err⟩
              cases err with
              | some e => simp [process, h1, h2, h3, h4, hp, hf]
              | none =>
                cases cont with
                | true =>
                  have ih := process_count_close r f rest
                  rcases hrec : process r f rest with ⟨x, tr⟩
                  rw [hrec] at ih
                  simp only [process, h1, h2, h3, h4, hp, hf, hrec]
                  simpa [List.count_cons] using ih
                | false => simp [process, h1, h2, h3, h4, hp, hf]
          · simpa [process, h1, h2, h3, h4] using process_count_close r f rest
        · simpa [process, h1, h2, h3] using process_count_close r f rest

theorem process_noCancel (r : String) (f : Payload → Bool × Option String) :
    ∀ s : List NetEvent, NetEvent.cancelClose ∉ s →
      Ev.closedConn ∉ (process r f s).2
  | [], _ => by simp [process]
  | .readErr :: _, _ => by simp [process]
  | .cancelClose :: _, h => by simp at h
  | .msg m :: rest, h => by
    simp only [List.mem_cons, not_or] at h
    by_cases h1 : m.type = "ka"
    · simpa [process, h1] using process_noCancel r f rest h.2
    · by_cases h2 : m.type = "error"
      · cases hp : m.payload <;> simp [process, h1, h2, hp]
      · by_cases h3 : m.type = "data"
        · by_cases h4 : m.id = r
          · cases hp : m.payload with
            | none => simp [process, h1, h2, h3, h4, hp]
            | some p =>
              rcases hf : f p with ⟨cont, err⟩
              cases err with
              | some e => simp [process, h1, h2, h3, h4, hp, hf]
              | none =>
                cases cont with
                | true =>
                  have ih := process_noCancel r f rest h.2
                  rcases hrec : process r f rest with ⟨x, tr⟩
                  rw [hrec] at ih
                  simp only [process, h1, h2, h3, h4, hp, hf, hrec]
                  simpa using ih
                | false => simp [process, h1, h2, h3, h4, hp, hf]
          · simpa [process, h1, h2, h3, h4] using process_noCancel r f rest h.2
        · simpa [process, h1, h2, h3] using process_noCancel r f rest h.2

theorem initConnection_trace_shape (ok : Bool) (s : List NetEvent) :
    (initConnection ok s).2.2 = [] ∨
      (initConnection ok s).2.2 = [Ev.sentMsg initMsg] ∨
      (initConnection ok s).2.2 = [Ev.sentMsg initMsg, Ev.closedConn] := by
  cases ok with
  | false => simp [initConnection]
  | true =>
    rcases hl : initConnectionLoop s with ⟨e, rest, tr⟩
    have := initConnectionLoop_trace s
    rw [hl] at this
    dsimp only at this
    rcases this with h | h <;> simp [initConnection, hl, h]

theorem initConnection_ack_trace (ok : Bool) (s : List NetEvent)
    (h : (initConnection ok s).1 = InitExit.ack) :
    (initConnection ok s).2.2 = [Ev.sentMsg initMsg] := by
  cases ok with
  | false => simp [initConnection] at h
  | true =>
    rcases hl : initConnectionLoop s with ⟨e, rest, tr⟩
    have ha := initConnectionLoop_ack_trace s
    rw [hl] at ha
    dsimp only at ha
    rw [initConnection] at h
    simp only [if_true, hl] at h
    have he : e = InitExit.ack := h
    simp [initConnection, hl, ha he]

theorem initConnection_noCancel (ok : Bool) (s : List NetEvent)
    (h : NetEvent.cancelClose ∉ s) :
    Ev.closedConn ∉ (initConnection ok s).2.2 ∧
      NetEvent.cancelClose ∉ (initConnection ok s).2.1 := by
  cases ok with
  | false => simpa [initConnection] using h
  | true =>
    rcases hl : initConnectionLoop s with ⟨e, rest, tr⟩
    have hn := initConnectionLoop_noCancel s h
    rw [hl] at hn
    dsimp only at hn
    simp [initConnection, hl, hn.1]
    exact hn.2

theorem start_trace_shape (r enc : String) (ax : List (String × String))
    (ok : Bool) (s : List NetEvent) :
    (start r enc ax ok s).2.2 = [] ∨
      (start r enc ax ok s).2.2 = [Ev.sentMsg (startMsg r enc ax)] ∨
      (start r enc ax ok s).2.2 = [Ev.sentMsg (startMsg r enc ax), Ev.closedConn] ∨
      (start r enc ax ok s).2.2 = [Ev.sentMsg (startMsg r enc ax), Ev.startAckObserved] := by
  cases ok with
  | false => simp [start]
  | true =>
    rcases hl : startLoop r s with ⟨e, rest, tr⟩
    have := startLoop_trace r s
    rw [hl] at this
    dsimp only at this
    rcases this with h | h | h <;> simp [start, hl, h]

theorem start_ok_trace (r enc : String) (ax : List (String × String))
    (ok : Bool) (s : List NetEvent)
    (h : (start r enc ax ok s).1 = StartExit.ok) :
    (start r enc ax ok s).2.2 = [Ev.sentMsg (startMsg r enc ax), Ev.startAckObserved] := by
  cases ok with
  | false => simp [start] at h
  | true =>
    rcases hl : startLoop r s with ⟨e, rest, tr⟩
    have ha := startLoop_ok_trace r s
    rw [hl] at ha
    dsimp only at ha
    rw [start] at h
    simp only [if_true, hl] at h
    have he : e = StartExit.ok := h
    simp [start, hl, ha he]

theorem start_noCancel (r enc : String) (ax : List (String × String))
    (ok : Bool) (s : List NetEvent)
    (h : NetEvent.cancelClose ∉ s) :
    Ev.closedConn ∉ (start r enc ax ok s).2.2 ∧
      NetEvent.cancelClose ∉ (start r enc ax ok s).2.1 := by
  cases ok with
  | false => simpa [start] using h
  | true =>
    rcases hl : startLoop r s with ⟨e, rest, tr⟩
    have hn := startLoop_noCancel r s h
    rw [hl] at hn
    dsimp only at hn
    simp [start, hl, hn.1]
    exact hn.2

/-! ## Claim theorems -/

/-- Claim C2: for every endpoint URL, the realtime address derivation
rewrites a host matching the managed-gateway pattern by replacing
`.appsync-api.` with `.appsync-realtime-api.` and leaves the path
unchanged; for every other host it appends `/realtime` to the path;
scheme `https` maps to `wss` and plain `http` maps to `ws`; and the two
concrete scenario endpoints derive the stated addresses. -/
theorem C2_generateWSAddr (u : URL) :
    (isAppsyncHost u.host = true →
      (GenerateWSAddr u).2.host =
        replaceFirst u.host ".appsync-api." ".appsync-realtime-api." ∧
      (GenerateWSAddr u).2.path = u.path) ∧
    (isAppsyncHost u.host = false →
      (GenerateWSAddr u).2.host = u.host ∧
      (GenerateWSAddr u).2.path = u.path ++ "/realtime") ∧
    (u.scheme = "https" → (GenerateWSAddr u).2.scheme = "wss") ∧
    (u.scheme = "http" → (GenerateWSAddr u).2.scheme = "ws") ∧
    (GenerateWSAddr ⟨"https", "svc.example.com", ""⟩).1 =
      "wss://svc.example.com/realtime" ∧
    (GenerateWSAddr ⟨"https", "x.appsync-api.us-east-1.amazonaws.com", "/graphql"⟩).1 =
      "wss://x.appsync-realtime-api.us-east-1.amazonaws.com/graphql" := by
  refine ⟨?_, ?_, ?_, ?_, by decide, by decide⟩
  · intro h
    by_cases hs : u.scheme = "https" <;>
      simp [GenerateWSAddr, generateWSAddrState, h, hs]
  · intro h
    by_cases hs : u.scheme = "https" <;>
      simp [GenerateWSAddr, generateWSAddrState, h, hs]
  · intro h
    by_cases ha : isAppsyncHost u.host <;>
      simp [GenerateWSAddr, generateWSAddrState, ha, h]
  · intro h
    by_cases ha : isAppsyncHost u.host <;>
      simp [GenerateWSAddr, generateWSAddrState, ha, h]

theorem C2_generateWSAddr_witness :
    (GenerateWSAddr ⟨"https", "x.appsync-api.us-east-1.amazonaws.com", "/graphql"⟩).2.path =
      "/graphql" ∧
    (GenerateWSAddr ⟨"https", "svc.example.com", "/api"⟩).2.path = "/api" ++ "/realtime" ∧
    (GenerateWSAddr ⟨"http", "svc.example.com", ""⟩).2.scheme = "ws" :=
  ⟨((C2_generateWSAddr ⟨"https", "x.appsync-api.us-east-1.amazonaws.com", "/graphql"⟩).1
      (by decide)).2,
   ((C2_generateWSAddr ⟨"https", "svc.example.com", "/api"⟩).2.1 (by decide)).2,
   (C2_generateWSAddr ⟨"http", "svc.example.com", ""⟩).2.2.2.1 rfl⟩

/-- Claim C9, as stated, is false at the endpoint
`https://svc.example.com`: the derivation mutates the URL it is given
(the Go function writes through the `*url.URL`), and applying it again
to the mutated URL yields a different address, so it is not
side-effect-free and does not leave the input unchanged. -/
theorem C9_counterexample :
    (GenerateWSAddr ⟨"https", "svc.example.com", ""⟩).2 ≠
      (⟨"https", "svc.example.com", ""⟩ : URL) ∧
    (GenerateWSAddr ((GenerateWSAddr ⟨"https", "svc.example.com", ""⟩).2)).1 ≠
      (GenerateWSAddr ⟨"https", "svc.example.com", ""⟩).1 := by
  exact ⟨by decide, by decide⟩

/-- Claim C9 (amended): the derivation is deterministic as a function of
the URL value; the produced scheme is always a realtime scheme, a secure
`https` input yields secure `wss` and every other scheme yields plain
`ws`; but the derivation is not side-effect-free: for valid `http` or
`https` endpoints the URL it was given ends up changed. -/
theorem C9_amended (u : URL) :
    ((GenerateWSAddr u).2.scheme = "wss" ∨ (GenerateWSAddr u).2.scheme = "ws") ∧
    (u.scheme = "https" → (GenerateWSAddr u).2.scheme = "wss") ∧
    (u.scheme ≠ "https" → (GenerateWSAddr u).2.scheme = "ws") ∧
    (u.scheme = "https" ∨ u.scheme = "http" → (GenerateWSAddr u).2 ≠ u) := by
  have hscheme : (GenerateWSAddr u).2.scheme =
      (if u.scheme = "https" then "wss" else "ws") := by
    by_cases ha : isAppsyncHost u.host <;> by_cases hs : u.scheme = "https" <;>
      simp [GenerateWSAddr, generateWSAddrState, ha, hs]
  refine ⟨?_, ?_, ?_, ?_⟩
  · rw [hscheme]
    by_cases hs : u.scheme = "https" <;> simp [hs]
  · intro hs; rw [hscheme, if_pos hs]
  · intro hs; rw [hscheme, if_neg hs]
  · intro hv heq
    rw [heq] at hscheme
    rcases hv with h | h <;> rw [h] at hscheme <;> simp at hscheme

theorem C9_amended_witness :
    (GenerateWSAddr ⟨"http", "h.example", "/p"⟩).2.scheme = "ws" ∧
    (GenerateWSAddr ⟨"https", "h.example", "/p"⟩).2 ≠ (⟨"https", "h.example", "/p"⟩ : URL) :=
  ⟨(C9_amended ⟨"http", "h.example", "/p"⟩).2.2.1 (by decide),
   (C9_amended ⟨"https", "h.example", "/p"⟩).2.2.2 (Or.inl rfl)⟩

/-- Claim C5: keep-alive messages in any of the three reading states
leave the state machine exactly where it was (the continuation is the
same loop on the remaining script, so no state change and no handler
call), and a data message whose correlation id does not match is
likewise dropped without invoking the handler and without
terminating. -/
theorem C5_keepalive_and_mismatch_dropped :
    (∀ (m : WsMessage) (s : List NetEvent), m.type = "ka" →
        initConnectionLoop (NetEvent.msg m :: s) = initConnectionLoop s) ∧
    (∀ (r : String) (m : WsMessage) (s : List NetEvent), m.type = "ka" →
        startLoop r (NetEvent.msg m :: s) = startLoop r s) ∧
    (∀ (r : String) (f : Payload → Bool × Option String) (m : WsMessage)
        (s : List NetEvent), m.type = "ka" →
        process r f (NetEvent.msg m :: s) = process r f s) ∧
    (∀ (r : String) (f : Payload → Bool × Option String) (m : WsMessage)
        (s : List NetEvent), m.type = "data" → m.id ≠ r →
        process r f (NetEvent.msg m :: s) = process r f s) := by
  refine ⟨?_, ?_, ?_, ?_⟩
  · intro m s h; simp [initConnectionLoop, h]
  · intro r m s h; simp [startLoop, h]
  · intro r f m s h; simp [process, h]
  · intro r f m s h hid; simp [process, h, hid]

theorem C5_keepalive_and_mismatch_dropped_witness :
    initConnectionLoop [NetEvent.msg { type := "ka" }] = initConnectionLoop [] ∧
    startLoop "rid" [NetEvent.msg { type := "ka" }] = startLoop "rid" [] ∧
    process "rid" (fun _ => (true, none)) [NetEvent.msg { type := "ka" }] =
      process "rid" (fun _ => (true, none)) [] ∧
    process "rid" (fun _ => (true, none)) [NetEvent.msg { type := "data", id := "other" }] =
      process "rid" (fun _ => (true, none)) [] :=
  ⟨C5_keepalive_and_mismatch_dropped.1 _ _ rfl,
   C5_keepalive_and_mismatch_dropped.2.1 _ _ _ rfl,
   C5_keepalive_and_mismatch_dropped.2.2.1 _ _ _ _ rfl,
   C5_keepalive_and_mismatch_dropped.2.2.2 _ _ _ _ rfl (by decide)⟩

/-- Claim C4 is right about the intent but the code panics: an `error`
control message whose payload field is absent (legal under the wire
framing, every payload is `omitempty`) makes both the Starting and the
Active read loop dereference the nil `pkt.Payload` pointer
(`pkt.Payload.Errors`), so the handling is not total — it crashes
instead of surfacing a fatal error.  With a payload present the loops do
surface all server-reported sub-errors. -/
theorem C4_error_without_payload_panics :
    startLoop "rid" [NetEvent.msg { type := "error" }] = (StartExit.panicked, [], []) ∧
    process "rid" (fun _ => (true, none)) [NetEvent.msg { type := "error" }] =
      (ProcExit.panicked, []) ∧
    startLoop "rid" [NetEvent.msg
        { type := "error", payload := some { errors := ["a", "b"] } }] =
      (StartExit.subErr ["a", "b"], [], []) ∧
    process "rid" (fun _ => (true, none)) [NetEvent.msg
        { type := "error", payload := some { errors := ["a", "b"] } }] =
      (ProcExit.streamErr ["a", "b"], []) := by
  refine ⟨by decide, rfl, by decide, rfl⟩

/-- Claim C7: the handshake sends a `connection_init` control message
with no payload, then reads in a loop: `connection_ack` succeeds,
`connection_error` is fatal — at the `Subscribe` level the operation
fails with the handshake-rejected result, the connection is closed and
the trigger is never invoked (the whole trace is the init send followed
by the close) — and any other message kind is tolerated: the loop
simply continues. -/
theorem C7_handshake (m : WsMessage) (s : List NetEvent) :
    initMsg.payload = none ∧
    (m.type = "connection_ack" →
      initConnectionLoop (NetEvent.msg m :: s) = (InitExit.ack, s, [])) ∧
    (m.type = "connection_error" →
      initConnectionLoop (NetEvent.msg m :: s) = (InitExit.connErr m.payload, s, [])) ∧
    (m.type ≠ "connection_ack" → m.type ≠ "connection_error" →
      initConnectionLoop (NetEvent.msg m :: s) = initConnectionLoop s) ∧
    (∀ (u : URL) (tok r enc : String) (f : Payload → Bool × Option String),
      m.type = "connection_error" →
      Subscribe (some u) tok r enc true true true none f (NetEvent.msg m :: s) =
        (SubResult.handshakeRejected m.payload, [Ev.sentMsg initMsg, Ev.closedConn])) := by
  refine ⟨rfl, ?_, ?_, ?_, ?_⟩
  · intro h; simp [initConnectionLoop, h]
  · intro h
    have : ¬ m.type = "connection_ack" := by rw [h]; decide
    simp [initConnectionLoop, h, this]
  · intro h1 h2; simp [initConnectionLoop, h1, h2]
  · intro u tok r enc f h
    have hna : ¬ m.type = "connection_ack" := by rw [h]; decide
    simp [Subscribe, initConnection, initConnectionLoop, h, hna]

theorem C7_handshake_witness :
    initConnectionLoop [NetEvent.msg { type := "connection_ack" }] =
      (InitExit.ack, [], []) ∧
    Subscribe (some ⟨"https", "h.example", ""⟩) "tok" "rid" "q" true true true none
        (fun _ => (true, none)) [NetEvent.msg { type := "connection_error" }] =
      (SubResult.handshakeRejected none, [Ev.sentMsg initMsg, Ev.closedConn]) :=
  ⟨(C7_handshake { type := "connection_ack" } []).2.1 rfl,
   (C7_handshake { type := "connection_error" } []).2.2.2.2 _ "tok" "rid" "q" _ rfl⟩

/-- Claim C6: in the Active state a `data` message carrying the active
correlation id and a payload is dispatched to the handler exactly once
with that payload (and a fresh background context); if the handler
answers with continuation flag `true` and no error the loop continues on
the rest of the script, if it answers `false` with no error the loop
terminates normally; and in the full scenario — start-ack observed,
trigger succeeds, one matching data frame arrives, handler stops — the
operation returns success, the handler was called exactly once with the
frame's payload, and the connection close appears exactly once in the
operation's trace. -/
theorem C6_data_dispatch (r : String) (f : Payload → Bool × Option String)
    (p : Payload) (m : WsMessage) (s : List NetEvent) (u : URL) (tok enc : String)
    (hty : m.type = "data") (hid : m.id = r) (hpl : m.payload = some p) :
    (f p = (true, none) →
      process r f (NetEvent.msg m :: s) =
        ((process r f s).1, Ev.handlerCalled Ctx.background p :: (process r f s).2)) ∧
    (f p = (false, none) →
      process r f (NetEvent.msg m :: s) = (ProcExit.done, [Ev.handlerCalled Ctx.background p])) ∧
    (f p = (false, none) →
      Subscribe (some u) tok r enc true true true none f
          [NetEvent.msg { type := "connection_ack" },
           NetEvent.msg { type := "start_ack", id := r }, NetEvent.msg m] =
        (SubResult.ok,
         [Ev.sentMsg initMsg,
          Ev.sentMsg (startMsg r enc [("host", hostnameOf u.host), ("Authorization", tok)]),
          Ev.startAckObserved, Ev.triggerInvoked, Ev.processEntered,
          Ev.handlerCalled Ctx.background p, Ev.closedConn])) := by
  refine ⟨?_, ?_, ?_⟩
  · intro hf
    rcases hrec : process r f s with ⟨x, tr⟩
    simp [process, hty, hid, hpl, hf, hrec]
  · intro hf
    simp [process, hty, hid, hpl, hf]
  · intro hf
    simp [Subscribe, initConnection, initConnectionLoop, start, startLoop, process,
      hty, hid, hpl, hf]

theorem C6_data_dispatch_witness :
    Subscribe (some ⟨"https", "svc.example.com", ""⟩) "tok" "rid" "q" true true true none
        (fun _ => (false, none))
        [NetEvent.msg { type := "connection_ack" },
         NetEvent.msg { type := "start_ack", id := "rid" },
         NetEvent.msg { type := "data", id := "rid", payload := some { data := "42" } }] =
      (SubResult.ok,
       [Ev.sentMsg initMsg,
        Ev.sentMsg (startMsg "rid" "q" [("host", "svc.example.com"), ("Authorization", "tok")]),
        Ev.startAckObserved, Ev.triggerInvoked, Ev.processEntered,
        Ev.handlerCalled Ctx.background { data := "42" }, Ev.closedConn]) := by
  have h := (C6_data_dispatch "rid" (fun _ => (false, none)) { data := "42" }
    { type := "data", id := "rid", payload := some { data := "42" } } []
    ⟨"https", "svc.example.com", ""⟩ "tok" "q" rfl rfl rfl).2.2 rfl
  simpa [hostnameOf] using h

/-- Claim C10: the data handler is always invoked with a fresh
background context (gql.go line 300 passes `context.Background()`), so
cancellation of the overall operation is never observable through the
context argument of any handler invocation, in any execution. -/
theorem C10_handler_context_background
    (endpoint : Option URL) (tok r enc : String) (dOk s1Ok s2Ok : Bool)
    (oErr : Option String) (f : Payload → Bool × Option String)
    (script : List NetEvent) (c : Ctx) (p : Payload)
    (hmem : Ev.handlerCalled c p ∈
      (Subscribe endpoint tok r enc dOk s1Ok s2Ok oErr f script).2) :
    c = Ctx.background ∧ c.isCancelled = false := by
  cases endpoint with
  | none => simp [Subscribe] at hmem
  | some u =>
    cases dOk with
    | false => simp [Subscribe] at hmem
    | true =>
      rcases hi : initConnection s1Ok script with ⟨e1, rest1, tr1⟩
      have h1 := initConnection_trace_shape s1Ok script
      rw [hi] at h1; dsimp only at h1
      have htr1 : Ev.handlerCalled c p ∉ tr1 := by
        rcases h1 with h | h | h <;> simp [h]
      cases e1 with
      | sendFail =>
        simp only [Subscribe, hi] at hmem
        simp at hmem
        exact absurd hmem htr1
      | connErr pl =>
        simp only [Subscribe, hi] at hmem
        simp at hmem
        exact absurd hmem htr1
      | readFail =>
        simp only [Subscribe, hi] at hmem
        simp at hmem
        exact absurd hmem htr1
      | ack =>
        rcases hs : start r enc [("host", hostnameOf u.host), ("Authorization", tok)]
            s2Ok rest1 with ⟨e2, rest2, tr2⟩
        have h2 := start_trace_shape r enc [("host", hostnameOf u.host), ("Authorization", tok)]
            s2Ok rest1
        rw [hs] at h2; dsimp only at h2
        have htr2 : Ev.handlerCalled c p ∉ tr2 := by
          rcases h2 with h | h | h | h <;> simp [h]
        cases e2 with
        | sendFail =>
          simp only [Subscribe, hi, hs] at hmem
          simp at hmem
          rcases hmem with h | h
          · exact absurd h htr1
          · exact absurd h htr2
        | subErr errs =>
          simp only [Subscribe, hi, hs] at hmem
          simp at hmem
          rcases hmem with h | h
          · exact absurd h htr1
          · exact absurd h htr2
        | panicked =>
          simp only [Subscribe, hi, hs] at hmem
          simp at hmem
          rcases hmem with h | h
          · exact absurd h htr1
          · exact absurd h htr2
        | readFail =>
          simp only [Subscribe, hi, hs] at hmem
          simp at hmem
          rcases hmem with h | h
          · exact absurd h htr1
          · exact absurd h htr2
        | ok =>
          cases oErr with
          | some e =>
            simp only [Subscribe, hi, hs] at hmem
            simp at hmem
            rcases hmem with h | h
            · exact absurd h htr1
            · exact absurd h htr2
          | none =>
            rcases hp : process r f rest2 with ⟨x, tr3⟩
            have h3 := process_trace r f rest2
            rw [hp] at h3; dsimp only at h3
            cases x <;>
              · simp only [Subscribe, hi, hs, hp] at hmem
                simp at hmem
                rcases hmem with h | h | h
                · exact absurd h htr1
                · exact absurd h htr2
                · rcases h3 _ h with ⟨q, hq⟩ | hq
                  · cases hq
                    exact ⟨rfl, rfl⟩
                  · cases hq

theorem C10_handler_context_background_witness :
    Ctx.background = Ctx.background ∧ Ctx.background.isCancelled = false :=
  C10_handler_context_background (some ⟨"https", "h.example", ""⟩) "tok" "rid" "q"
    true true true none (fun _ => (false, none))
    [NetEvent.msg { type := "connection_ack" },
     NetEvent.msg { type := "start_ack", id := "rid" },
     NetEvent.msg { type := "data", id := "rid", payload := some { data := "d" } }]
    Ctx.background { data := "d" } (by decide)

/-- Claim C1: in every execution of `Subscribe`, the trigger action is
invoked at most once and only strictly after a start-ack whose
correlation id equals the operation's subscription id was observed
(every split of the trace at a trigger event has the start-ack
observation strictly before it and no other trigger event anywhere);
and if the trigger fails, the operation aborts with that error and the
data-processing loop is never entered. -/
theorem C1_trigger_strictly_after_ack
    (endpoint : Option URL) (tok r enc : String) (dOk s1Ok s2Ok : Bool)
    (oErr : Option String) (f : Payload → Bool × Option String)
    (script : List NetEvent) :
    (∀ A B, (Subscribe endpoint tok r enc dOk s1Ok s2Ok oErr f script).2 =
        A ++ Ev.triggerInvoked :: B →
      Ev.startAckObserved ∈ A ∧ Ev.triggerInvoked ∉ A ∧ Ev.triggerInvoked ∉ B) ∧
    (∀ e, oErr = some e →
      Ev.processEntered ∉ (Subscribe endpoint tok r enc dOk s1Ok s2Ok oErr f script).2 ∧
      (Ev.triggerInvoked ∈ (Subscribe endpoint tok r enc dOk s1Ok s2Ok oErr f script).2 →
        (Subscribe endpoint tok r enc dOk s1Ok s2Ok oErr f script).1 =
          SubResult.triggerFailed e)) := by
  cases endpoint with
  | none =>
    refine ⟨fun A B hA => ?_, fun e he => ?_⟩
    · exact absurd (hA ▸ List.mem_append_right A (List.mem_cons_self _ _))
        (by simp [Subscribe])
    · exact ⟨by simp [Subscribe], fun htrig => absurd htrig (by simp [Subscribe])⟩
  | some u =>
    cases dOk with
    | false =>
      refine ⟨fun A B hA => ?_, fun e he => ?_⟩
      · exact absurd (hA ▸ List.mem_append_right A (List.mem_cons_self _ _))
          (by simp [Subscribe])
      · exact ⟨by simp [Subscribe], fun htrig => absurd htrig (by simp [Subscribe])⟩
    | true =>
      rcases hi : initConnection s1Ok script with ⟨e1, rest1, tr1⟩
      have h1 := initConnection_trace_shape s1Ok script
      rw [hi] at h1; dsimp only at h1
      have htrig1 : Ev.triggerInvoked ∉ tr1 ∧ Ev.processEntered ∉ tr1 := by
        rcases h1 with h | h | h <;> simp [h]
      cases e1 with
      | sendFail =>
        simp only [Subscribe, hi]
        refine ⟨fun A B hA => ?_, fun e he => ?_⟩
        · exact absurd (hA ▸ List.mem_append_right A (List.mem_cons_self _ _))
            (by simp [htrig1.1])
        · exact ⟨by simp [htrig1.2], fun htrig => absurd htrig (by simp [htrig1.1])⟩
      | connErr pl =>
        simp only [Subscribe, hi]
        refine ⟨fun A B hA => ?_, fun e he => ?_⟩
        · exact absurd (hA ▸ List.mem_append_right A (List.mem_cons_self _ _))
            (by simp [htrig1.1])
        · exact ⟨by simp [htrig1.2], fun htrig => absurd htrig (by simp [htrig1.1])⟩
      | readFail =>
        simp only [Subscribe, hi]
        refine ⟨fun A B hA => ?_, fun e he => ?_⟩
        · exact absurd (hA ▸ List.mem_append_right A (List.mem_cons_self _ _))
            (by simp [htrig1.1])
        · exact ⟨by simp [htrig1.2], fun htrig => absurd htrig (by simp [htrig1.1])⟩
      | ack =>
        have h1ack := initConnection_ack_trace s1Ok script
        rw [hi] at h1ack; dsimp only at h1ack
        have h1tr : tr1 = [Ev.sentMsg initMsg] := h1ack rfl
        rcases hs : start r enc [("host", hostnameOf u.host), ("Authorization", tok)]
            s2Ok rest1 with ⟨e2, rest2, tr2⟩
        have h2 := start_trace_shape r enc
          [("host", hostnameOf u.host), ("Authorization", tok)] s2Ok rest1
        rw [hs] at h2; dsimp only at h2
        have htrig2 : Ev.triggerInvoked ∉ tr2 ∧ Ev.processEntered ∉ tr2 := by
          rcases h2 with h | h | h | h <;> simp [h]
        cases e2 with
        | sendFail =>
          simp only [Subscribe, hi, hs]
          refine ⟨fun A B hA => ?_, fun e he => ?_⟩
          · exact absurd (hA ▸ List.mem_append_right A (List.mem_cons_self _ _))
              (by simp [htrig1.1, htrig2.1])
          · exact ⟨by simp [htrig1.2, htrig2.2],
              fun htrig => absurd htrig (by simp [htrig1.1, htrig2.1])⟩
        | subErr errs =>
          simp only [Subscribe, hi, hs]
          refine ⟨fun A B hA => ?_, fun e he => ?_⟩
          · exact absurd (hA ▸ List.mem_append_right A (List.mem_cons_self _ _))
              (by simp [htrig1.1, htrig2.1])
          · exact ⟨by simp [htrig1.2, htrig2.2],
              fun htrig => absurd htrig (by simp [htrig1.1, htrig2.1])⟩
        | panicked =>
          simp only [Subscribe, hi, hs]
          refine ⟨fun A B hA => ?_, fun e he => ?_⟩
          · exact absurd (hA ▸ List.mem_append_right A (List.mem_cons_self _ _))
              (by simp [htrig1.1, htrig2.1])
          · exact ⟨by simp [htrig1.2, htrig2.2],
              fun htrig => absurd htrig (by simp [htrig1.1, htrig2.1])⟩
        | readFail =>
          simp only [Subscribe, hi, hs]
          refine ⟨fun A B hA => ?_, fun e he => ?_⟩
          · exact absurd (hA ▸ List.mem_append_right A (List.mem_cons_self _ _))
              (by simp [htrig1.1, htrig2.1])
          · exact ⟨by simp [htrig1.2, htrig2.2],
              fun htrig => absurd htrig (by simp [htrig1.1, htrig2.1])⟩
        | ok =>
          have h2ok := start_ok_trace r enc
            [("host", hostnameOf u.host), ("Authorization", tok)] s2Ok rest1
          rw [hs] at h2ok; dsimp only at h2ok
          have h2tr : tr2 = [Ev.sentMsg (startMsg r enc
              [("host", hostnameOf u.host), ("Authorization", tok)]), Ev.startAckObserved] :=
            h2ok rfl
          cases oErr with
          | some e0 =>
            simp only [Subscribe, hi, hs]
            have hclean : tr1 ++ tr2 ++ [Ev.triggerInvoked, Ev.closedConn] =
                (tr1 ++ tr2) ++ Ev.triggerInvoked :: [Ev.closedConn] := by
              simp [List.append_assoc]
            refine ⟨fun A B hA => ?_, fun e he => ?_⟩
            · rw [hclean] at hA
              have hsp := split_of_single_occ (tr1 ++ tr2) [Ev.closedConn] A B
                (by simp [htrig1.1, htrig2.1]) (by simp) hA
              refine ⟨?_, ?_, ?_⟩
              · rw [← hsp.1]
                exact List.mem_append_right tr1 (by simp [h2tr])
              · rw [← hsp.1]; simp [htrig1.1, htrig2.1]
              · rw [← hsp.2]; simp
            · cases he
              exact ⟨by simp [htrig1.2, htrig2.2], fun _ => rfl⟩
          | none =>
            rcases hp : process r f rest2 with ⟨x, tr3⟩
            have h3 := process_trace r f rest2
            rw [hp] at h3; dsimp only at h3
            have htrig3 : Ev.triggerInvoked ∉ tr3 := by
              intro hmem
              rcases h3 _ hmem with ⟨q, hq⟩ | hq <;> simp at hq
            have hclean : tr1 ++ tr2 ++ [Ev.triggerInvoked, Ev.processEntered] ++
                tr3 ++ [Ev.closedConn] =
                (tr1 ++ tr2) ++ Ev.triggerInvoked ::
                  (Ev.processEntered :: (tr3 ++ [Ev.closedConn])) := by
              simp [List.append_assoc]
            cases x <;>
            · simp only [Subscribe, hi, hs, hp]
              refine ⟨fun A B hA => ?_, fun e he => by cases he⟩
              rw [hclean] at hA
              have hsp := split_of_single_occ (tr1 ++ tr2)
                (Ev.processEntered :: (tr3 ++ [Ev.closedConn])) A B
                (by simp [htrig1.1, htrig2.1]) (by simp [htrig3]) hA
              refine ⟨?_, ?_, ?_⟩
              · rw [← hsp.1]
                exact List.mem_append_right tr1 (by simp [h2tr])
              · rw [← hsp.1]; simp [htrig1.1, htrig2.1]
              · rw [← hsp.2]; simp [htrig3]


theorem C1_trigger_strictly_after_ack_witness :
    (Ev.startAckObserved ∈ ([Ev.sentMsg initMsg,
        Ev.sentMsg (startMsg "rid" "q" [("host", "h.example"), ("Authorization", "tok")]),
        Ev.startAckObserved] : List Ev) ∧
      Ev.triggerInvoked ∉ ([Ev.sentMsg initMsg,
        Ev.sentMsg (startMsg "rid" "q" [("host", "h.example"), ("Authorization", "tok")]),
        Ev.startAckObserved] : List Ev) ∧
      Ev.triggerInvoked ∉ ([Ev.closedConn] : List Ev)) ∧
    (Ev.processEntered ∉
        (Subscribe (some ⟨"https", "h.example", ""⟩) "tok" "rid" "q" true true true
          (some "boom") (fun _ => (true, none))
          [NetEvent.msg { type := "connection_ack" },
           NetEvent.msg { type := "start_ack", id := "rid" }]).2 ∧
      (Ev.triggerInvoked ∈
          (Subscribe (some ⟨"https", "h.example", ""⟩) "tok" "rid" "q" true true true
            (some "boom") (fun _ => (true, none))
            [NetEvent.msg { type := "connection_ack" },
             NetEvent.msg { type := "start_ack", id := "rid" }]).2 →
        (Subscribe (some ⟨"https", "h.example", ""⟩) "tok" "rid" "q" true true true
            (some "boom") (fun _ => (true, none))
            [NetEvent.msg { type := "connection_ack" },
             NetEvent.msg { type := "start_ack", id := "rid" }]).1 =
          SubResult.triggerFailed "boom")) :=
  ⟨(C1_trigger_strictly_after_ack (some ⟨"https", "h.example", ""⟩) "tok" "rid" "q"
      true true true (some "boom") (fun _ => (true, none))
      [NetEvent.msg { type := "connection_ack" },
       NetEvent.msg { type := "start_ack", id := "rid" }]).1
    [Ev.sentMsg initMsg,
     Ev.sentMsg (startMsg "rid" "q" [("host", "h.example"), ("Authorization", "tok")]),
     Ev.startAckObserved] [Ev.closedConn] (by decide),
   (C1_trigger_strictly_after_ack (some ⟨"https", "h.example", ""⟩) "tok" "rid" "q"
      true true true (some "boom") (fun _ => (true, none))
      [NetEvent.msg { type := "connection_ack" },
       NetEvent.msg { type := "start_ack", id := "rid" }]).2 "boom" rfl⟩

/-- Claim C3, as stated, is false: in the execution where external
cancellation fires while the operation waits in Active (the watcher
goroutine closes the connection, which is exactly how the in-flight
read is interrupted), the close operation is performed twice — once by
the watcher and once by the deferred close on the return path — not
exactly once. -/
theorem C3_counterexample :
    (Subscribe (some ⟨"https", "h.example", ""⟩) "tok" "rid" "q" true true true none
        (fun _ => (true, none))
        [NetEvent.msg { type := "connection_ack" },
         NetEvent.msg { type := "start_ack", id := "rid" },
         NetEvent.cancelClose]).2.count Ev.closedConn = 2 ∧
    ¬ (Subscribe (some ⟨"https", "h.example", ""⟩) "tok" "rid" "q" true true true none
        (fun _ => (true, none))
        [NetEvent.msg { type := "connection_ack" },
         NetEvent.msg { type := "start_ack", id := "rid" },
         NetEvent.cancelClose]).2.count Ev.closedConn = 1 := by
  exact ⟨by decide, by decide⟩

/-- Claim C3 (amended): on every terminal transition after a
successful dial the connection close is invoked at least once — the
deferred close always runs — and at most twice; the second close
happens exactly when the cancellation watcher already closed the
connection to interrupt an in-flight read, and absent any
cancellation-induced close the close is performed exactly once. -/
theorem C3_amended (u : URL) (tok r enc : String) (s1Ok s2Ok : Bool)
    (oErr : Option String) (f : Payload → Bool × Option String)
    (script : List NetEvent) :
    1 ≤ (Subscribe (some u) tok r enc true s1Ok s2Ok oErr f script).2.count Ev.closedConn ∧
    (Subscribe (some u) tok r enc true s1Ok s2Ok oErr f script).2.count Ev.closedConn ≤ 2 ∧
    (NetEvent.cancelClose ∉ script →
      (Subscribe (some u) tok r enc true s1Ok s2Ok oErr f script).2.count Ev.closedConn = 1) := by
  rcases hi : initConnection s1Ok script with ⟨e1, rest1, tr1⟩
  have h1 := initConnection_trace_shape s1Ok script
  rw [hi] at h1; dsimp only at h1
  have hc1 : tr1.count Ev.closedConn ≤ 1 := by
    rcases h1 with h | h | h <;> simp [h]
  have hnc1 : NetEvent.cancelClose ∉ script →
      tr1.count Ev.closedConn = 0 ∧ NetEvent.cancelClose ∉ rest1 := by
    intro hno
    have hn := initConnection_noCancel s1Ok script hno
    rw [hi] at hn; dsimp only at hn
    exact ⟨List.count_eq_zero.mpr hn.1, hn.2⟩
  cases e1 with
  | sendFail =>
    simp only [Subscribe, hi]
    refine ⟨by simp, by simp; omega, fun hno => by simp [(hnc1 hno).1]⟩
  | connErr pl =>
    simp only [Subscribe, hi]
    refine ⟨by simp, by simp; omega, fun hno => by simp [(hnc1 hno).1]⟩
  | readFail =>
    simp only [Subscribe, hi]
    refine ⟨by simp, by simp; omega, fun hno => by simp [(hnc1 hno).1]⟩
  | ack =>
    have h1a := initConnection_ack_trace s1Ok script
    rw [hi] at h1a; dsimp only at h1a
    have h1tr : tr1 = [Ev.sentMsg initMsg] := h1a rfl
    rcases hs : start r enc [("host", hostnameOf u.host), ("Authorization", tok)]
        s2Ok rest1 with ⟨e2, rest2, tr2⟩
    have h2 := start_trace_shape r enc
      [("host", hostnameOf u.host), ("Authorization", tok)] s2Ok rest1
    rw [hs] at h2; dsimp only at h2
    have hc2 : tr2.count Ev.closedConn ≤ 1 := by
      rcases h2 with h | h | h | h <;> simp [h]
    have hnc2 : NetEvent.cancelClose ∉ script →
        tr2.count Ev.closedConn = 0 ∧ NetEvent.cancelClose ∉ rest2 := by
      intro hno
      have hn := start_noCancel r enc [("host", hostnameOf u.host), ("Authorization", tok)]
        s2Ok rest1 (hnc1 hno).2
      rw [hs] at hn; dsimp only at hn
      exact ⟨List.count_eq_zero.mpr hn.1, hn.2⟩
    cases e2 with
    | sendFail =>
      simp only [Subscribe, hi, hs]
      refine ⟨by simp [h1tr], by simp [h1tr]; omega,
        fun hno => by simp [h1tr, (hnc2 hno).1]⟩
    | subErr errs =>
      simp only [Subscribe, hi, hs]
      refine ⟨by simp [h1tr], by simp [h1tr]; omega,
        fun hno => by simp [h1tr, (hnc2 hno).1]⟩
    | panicked =>
      simp only [Subscribe, hi, hs]
      refine ⟨by simp [h1tr], by simp [h1tr]; omega,
        fun hno => by simp [h1tr, (hnc2 hno).1]⟩
    | readFail =>
      simp only [Subscribe, hi, hs]
      refine ⟨by simp [h1tr], by simp [h1tr]; omega,
        fun hno => by simp [h1tr, (hnc2 hno).1]⟩
    | ok =>
      have h2a := start_ok_trace r enc
        [("host", hostnameOf u.host), ("Authorization", tok)] s2Ok rest1
      rw [hs] at h2a; dsimp only at h2a
      have h2tr : tr2 = [Ev.sentMsg (startMsg r enc
          [("host", hostnameOf u.host), ("Authorization", tok)]), Ev.startAckObserved] :=
        h2a rfl
      cases oErr with
      | some e0 =>
        simp only [Subscribe, hi, hs]
        refine ⟨by simp [h1tr, h2tr], by simp [h1tr, h2tr], fun hno => by simp [h1tr, h2tr]⟩
      | none =>
        rcases hp : process r f rest2 with ⟨x, tr3⟩
        have hc3 := process_count_close r f rest2
        rw [hp] at hc3; dsimp only at hc3
        have hnc3 : NetEvent.cancelClose ∉ script → tr3.count Ev.closedConn = 0 := by
          intro hno
          have hn := process_noCancel r f rest2 (hnc2 hno).2
          rw [hp] at hn; dsimp only at hn
          exact List.count_eq_zero.mpr hn
        cases x <;>
        · simp only [Subscribe, hi, hs, hp]
          refine ⟨by simp [h1tr, h2tr], by simp [h1tr, h2tr]; omega,
            fun hno => by simp [h1tr, h2tr, hnc3 hno]⟩
theorem C3_amended_witness :
    1 ≤ (Subscribe (some ⟨"https", "h.example", ""⟩) "tok" "rid" "q" true true true none
        (fun _ => (false, none))
        [NetEvent.msg { type := "connection_ack" },
         NetEvent.msg { type := "start_ack", id := "rid" }]).2.count Ev.closedConn ∧
    (Subscribe (some ⟨"https", "h.example", ""⟩) "tok" "rid" "q" true true true none
        (fun _ => (false, none))
        [NetEvent.msg { type := "connection_ack" },
         NetEvent.msg { type := "start_ack", id := "rid" }]).2.count Ev.closedConn ≤ 2 ∧
    (Subscribe (some ⟨"https", "h.example", ""⟩) "tok" "rid" "q" true true true none
        (fun _ => (false, none))
        [NetEvent.msg { type := "connection_ack" },
         NetEvent.msg { type := "start_ack", id := "rid" }]).2.count Ev.closedConn = 1 :=
  ⟨(C3_amended ⟨"https", "h.example", ""⟩ "tok" "rid" "q" true true none
      (fun _ => (false, none))
      [NetEvent.msg { type := "connection_ack" },
       NetEvent.msg { type := "start_ack", id := "rid" }]).1,
   (C3_amended ⟨"https", "h.example", ""⟩ "tok" "rid" "q" true true none
      (fun _ => (false, none))
      [NetEvent.msg { type := "connection_ack" },
       NetEvent.msg { type := "start_ack", id := "rid" }]).2.1,
   (C3_amended ⟨"https", "h.example", ""⟩ "tok" "rid" "q" true true none
      (fun _ => (false, none))
      [NetEvent.msg { type := "connection_ack" },
       NetEvent.msg { type := "start_ack", id := "rid" }]).2.2 (by decide)⟩

/-! ## Sub-protocol encoding lemmas (claim C8) -/

theorem b64Char_ne_eq (n : Nat) : b64Char n ≠ '=' := by
  have hmem : '=' ∉ b64Alphabet := by decide
  rw [b64Char]
  rcases Nat.lt_or_ge n b64Alphabet.length with hl | hl
  · intro h
    rw [List.getD_eq_getElem _ _ hl] at h
    exact hmem (h ▸ List.getElem_mem hl)
  · rw [List.getD_eq_default _ _ hl]
    decide

theorem stripEq_encPad : ∀ bs : List Nat, stripEq (b64EncPad bs) = b64EncRaw bs
  | [] => rfl
  | [a] => by simp [b64EncPad, b64EncRaw, stripEq, b64Char_ne_eq]
  | [a, b] => by simp [b64EncPad, b64EncRaw, stripEq, b64Char_ne_eq]
  | a :: b :: c :: rest => by
    have ih := stripEq_encPad rest
    simp only [stripEq] at ih ⊢
    simp [b64EncPad, b64EncRaw, b64Char_ne_eq]
    simpa using ih

theorem b64Val_table : ∀ i : Fin 64, b64Val (b64Char i.val) = some i.val := by decide

theorem b64Val_b64Char (n : Nat) (h : n < 64) : b64Val (b64Char n) = some n :=
  b64Val_table ⟨n, h⟩

theorem b64Dec_encRaw : ∀ bs : List Nat, (∀ b ∈ bs, b < 256) →
    b64Dec (b64EncRaw bs) = some bs
  | [], _ => rfl
  | [a], h => by
    have ha : a < 256 := h a (by simp)
    rw [b64EncRaw, b64Dec, b64Val_b64Char _ (by omega), b64Val_b64Char _ (by omega)]
    simp; omega
  | [a, b], h => by
    have ha : a < 256 := h a (by simp)
    have hb : b < 256 := h b (by simp)
    rw [b64EncRaw, b64Dec, b64Val_b64Char _ (by omega), b64Val_b64Char _ (by omega),
      b64Val_b64Char _ (by omega)]
    simp; omega
  | a :: b :: c :: rest, h => by
    have ha : a < 256 := h a (by simp)
    have hb : b < 256 := h b (by simp)
    have hc : c < 256 := h c (by simp)
    have hrest : ∀ x ∈ rest, x < 256 := fun x hx => h x (by simp [hx])
    have ih := b64Dec_encRaw rest hrest
    rw [b64EncRaw, b64Dec, b64Val_b64Char _ (by omega), b64Val_b64Char _ (by omega),
      b64Val_b64Char _ (by omega), b64Val_b64Char _ (by omega), ih]
    simp; omega

theorem hexVal_hexDigit (x : Nat) (h : x < 16) : hexVal (hexDigit x) = some x := by
  by_cases hx : x < 10
  · rw [hexDigit, if_pos hx, hexVal, if_pos (by omega)]
    simp
  · rw [hexDigit, if_neg hx, hexVal, if_neg (by omega), if_pos (by omega)]
    simp

theorem parseJString_uescape (b : Nat) (hb : b < 128) (tail : List Nat) :
    parseJString (92 :: 117 :: 48 :: 48 :: hexDigit (b / 16) :: hexDigit (b % 16) :: tail) =
      (parseJString tail).map (fun p => (b :: p.1, p.2)) := by
  have hv3 : hexVal (hexDigit (b / 16)) = some (b / 16) := hexVal_hexDigit _ (by omega)
  have hv4 : hexVal (hexDigit (b % 16)) = some (b % 16) := hexVal_hexDigit _ (by omega)
  have h48 : hexVal 48 = some 0 := rfl
  have hbv : ((0 * 16 + 0) * 16 + b / 16) * 16 + b % 16 = b := by omega
  rw [parseJString, parseJEscape, parseJHex]
  simp only [h48, hv3, hv4, hbv]
  simp [hb]

theorem dropLit_append : ∀ (p r : List Nat), dropLit p (p ++ r) = some r
  | [], r => rfl
  | x :: p, r => by simp [dropLit, dropLit_append p r]

theorem escByte_valid (b : Nat) (hb : b < 256) : ∀ x ∈ escByte b, x < 256 := by
  have hd1 : hexDigit (b / 16) < 256 := by rw [hexDigit]; split <;> omega
  have hd2 : hexDigit (b % 16) < 256 := by rw [hexDigit]; split <;> omega
  rw [escByte]
  split
  · decide
  · split
    · decide
    · split
      · decide
      · split
        · decide
        · split
          · decide
          · split
            · intro x hx
              fin_cases hx
              · omega
              · omega
              · omega
              · omega
              · exact hd1
              · exact hd2
            · intro x hx
              simp at hx
              omega

theorem isPrefixOf_self_append : ∀ (p r : List Char), p.isPrefixOf (p ++ r) = true
  | [], r => by simp [List.isPrefixOf]
  | c :: p, r => by simp [List.isPrefixOf, isPrefixOf_self_append p r]


theorem parseJString_closing (rest : List Nat) :
    parseJString (34 :: rest) = some ([], rest) := by
  rw [parseJString]; simp

theorem parseJString_passthrough (b : Nat) (tail : List Nat)
    (h34 : ¬ b = 34) (h92 : ¬ b = 92) :
    parseJString (b :: tail) = (parseJString tail).map (fun p => (b :: p.1, p.2)) := by
  rw [parseJString, if_neg h34, if_neg h92]

theorem parseJString_escByte (b : Nat) (hb : b < 128) (tail : List Nat) :
    parseJString (escByte b ++ tail) =
      (parseJString tail).map (fun p => (b :: p.1, p.2)) := by
  by_cases h34 : b = 34
  · subst h34
    rw [show escByte 34 ++ tail = 92 :: 34 :: tail by simp [escByte], parseJString,
      parseJEscape]
    simp
  · by_cases h92 : b = 92
    · subst h92
      rw [show escByte 92 ++ tail = 92 :: 92 :: tail by simp [escByte], parseJString,
        parseJEscape]
      simp
    · by_cases h10 : b = 10
      · subst h10
        rw [show escByte 10 ++ tail = 92 :: 110 :: tail by simp [escByte], parseJString,
          parseJEscape]
        simp
      · by_cases h13 : b = 13
        · subst h13
          rw [show escByte 13 ++ tail = 92 :: 114 :: tail by simp [escByte], parseJString,
            parseJEscape]
          simp
        · by_cases h9 : b = 9
          · subst h9
            rw [show escByte 9 ++ tail = 92 :: 116 :: tail by simp [escByte], parseJString,
              parseJEscape]
            simp
          · by_cases hctl : b < 32 ∨ b = 60 ∨ b = 62 ∨ b = 38
            · have hesc : escByte b =
                  [92, 117, 48, 48, hexDigit (b / 16), hexDigit (b % 16)] := by
                rw [escByte, if_neg h34, if_neg h92, if_neg h10, if_neg h13, if_neg h9,
                  if_pos hctl]
              rw [hesc, show [92, 117, 48, 48, hexDigit (b / 16), hexDigit (b % 16)] ++
                  tail = 92 :: 117 :: 48 :: 48 :: hexDigit (b / 16) ::
                  hexDigit (b % 16) :: tail from rfl]
              exact parseJString_uescape b (by omega) tail
            · have hesc : escByte b = [b] := by
                rw [escByte, if_neg h34, if_neg h92, if_neg h10, if_neg h13, if_neg h9,
                  if_neg hctl]
              rw [hesc, show [b] ++ tail = b :: tail from rfl]
              exact parseJString_passthrough b tail h34 h92

theorem parseJString_u2028 (tail : List Nat) :
    parseJString (u2028Esc ++ tail) =
      (parseJString tail).map (fun p => (226 :: 128 :: 168 :: p.1, p.2)) := by
  rw [show u2028Esc ++ tail = 92 :: 117 :: 50 :: 48 :: 50 :: 56 :: tail from rfl,
    parseJString, parseJEscape, parseJHex]
  simp [hexVal]

theorem parseJString_u2029 (tail : List Nat) :
    parseJString (u2029Esc ++ tail) =
      (parseJString tail).map (fun p => (226 :: 128 :: 169 :: p.1, p.2)) := by
  rw [show u2029Esc ++ tail = 92 :: 117 :: 50 :: 48 :: 50 :: 57 :: tail from rfl,
    parseJString, parseJEscape, parseJHex]
  simp [hexVal]

theorem isCont_bounds (c : Nat) (h : isCont c = true) : 128 ≤ c ∧ c ≤ 191 := by
  simpa [isCont] using h

theorem accept2_bounds (b c : Nat) (h : accept2 b c = true) : 128 ≤ c ∧ c ≤ 191 := by
  rw [accept2] at h
  split at h
  · simp at h; omega
  · split at h
    · simp at h; omega
    · split at h
      · simp at h; omega
      · split at h
        · simp at h; omega
        · exact isCont_bounds c h

theorem parseJString_raw_append :
    ∀ (blk : List Nat), (∀ x ∈ blk, ¬ x = 34 ∧ ¬ x = 92) → ∀ tail : List Nat,
      parseJString (blk ++ tail) =
        (parseJString tail).map (fun p => (blk ++ p.1, p.2))
  | [], _, tail => by
    cases hp : parseJString tail <;> simp [hp]
  | x :: blk, h, tail => by
    have hx := h x (by simp)
    have ih := parseJString_raw_append blk (fun y hy => h y (by simp [hy])) tail
    rw [List.cons_append, parseJString_passthrough x _ hx.1 hx.2, ih]
    cases parseJString tail <;> rfl


theorem parseJString_escBytes :
    ∀ (s rest : List Nat), isUtf8 s = true →
      parseJString (escBytes s ++ (34 :: rest)) = some (s, rest)
  | [], rest, _ => by
    rw [show escBytes [] ++ (34 :: rest) = 34 :: rest by simp [escBytes],
      parseJString_closing]
  | [b], rest, h => by
    have hb : b < 128 := by simpa [isUtf8] using h
    have hesc : escBytes [b] = escByte b := by
      conv_lhs => rw [escBytes]
      rw [if_pos hb]
    rw [hesc, parseJString_escByte b hb, parseJString_closing]
    rfl
  | [b, c1], rest, h => by
    by_cases hb : b < 128
    · have hrec : isUtf8 [c1] = true := by rw [isUtf8, if_pos hb] at h; exact h
      have ih := parseJString_escBytes [c1] rest hrec
      have hesc : escBytes [b, c1] = escByte b ++ escBytes [c1] := by
        conv_lhs => rw [escBytes]
        rw [if_pos hb]
      rw [hesc, List.append_assoc, parseJString_escByte b hb, ih]
      rfl
    · by_cases h2 : 194 ≤ b ∧ b ≤ 223
      · have hc : isCont c1 = true := by
          rw [isUtf8, if_neg hb, if_pos h2] at h; exact h
        have hcb := isCont_bounds c1 hc
        have hblk : ∀ x ∈ [b, c1], ¬ x = 34 ∧ ¬ x = 92 := by
          intro x hx
          simp at hx
          rcases hx with rfl | rfl <;> exact ⟨by omega, by omega⟩
        have hesc : escBytes [b, c1] = [b, c1] := by
          conv_lhs => rw [escBytes]
          rw [if_neg hb, if_pos h2, if_pos hc]
        rw [hesc, parseJString_raw_append [b, c1] hblk, parseJString_closing]
        rfl
      · rw [isUtf8, if_neg hb, if_neg h2] at h
        exact absurd h (by simp)
  | [b, c1, c2], rest, h => by
    by_cases hb : b < 128
    · have hrec : isUtf8 [c1, c2] = true := by rw [isUtf8, if_pos hb] at h; exact h
      have ih := parseJString_escBytes [c1, c2] rest hrec
      have hesc : escBytes [b, c1, c2] = escByte b ++ escBytes [c1, c2] := by
        conv_lhs => rw [escBytes]
        rw [if_pos hb]
      rw [hesc, List.append_assoc, parseJString_escByte b hb, ih]
      rfl
    · by_cases h2 : 194 ≤ b ∧ b ≤ 223
      · rw [isUtf8, if_neg hb, if_pos h2, Bool.and_eq_true] at h
        have hcb := isCont_bounds c1 h.1
        have ih := parseJString_escBytes [c2] rest h.2
        have hblk : ∀ x ∈ [b, c1], ¬ x = 34 ∧ ¬ x = 92 := by
          intro x hx
          simp at hx
          rcases hx with rfl | rfl <;> exact ⟨by omega, by omega⟩
        have hesc : escBytes [b, c1, c2] = b :: c1 :: escBytes [c2] := by
          conv_lhs => rw [escBytes]
          rw [if_neg hb, if_pos h2, if_pos h.1]
        rw [hesc,
          show (b :: c1 :: escBytes [c2]) ++ (34 :: rest) =
            [b, c1] ++ (escBytes [c2] ++ (34 :: rest)) by simp,
          parseJString_raw_append [b, c1] hblk, ih]
        rfl
      · by_cases h3 : 224 ≤ b ∧ b ≤ 239
        · rw [isUtf8, if_neg hb, if_neg h2, if_pos h3, Bool.and_eq_true] at h
          have hcb1 := accept2_bounds b c1 h.1
          have hcb2 := isCont_bounds c2 h.2
          by_cases hs1 : b = 226 ∧ c1 = 128 ∧ c2 = 168
          · obtain ⟨rfl, rfl, rfl⟩ := hs1
            have hesc : escBytes [226, 128, 168] = u2028Esc := by
              conv_lhs => rw [escBytes]
              rw [if_neg hb, if_neg h2, if_pos h3, if_pos ⟨h.1, h.2⟩,
                if_pos ⟨rfl, rfl, rfl⟩]
            rw [hesc, parseJString_u2028, parseJString_closing]
            rfl
          · by_cases hs2 : b = 226 ∧ c1 = 128 ∧ c2 = 169
            · obtain ⟨rfl, rfl, rfl⟩ := hs2
              have hesc : escBytes [226, 128, 169] = u2029Esc := by
                conv_lhs => rw [escBytes]
                rw [if_neg hb, if_neg h2, if_pos h3, if_pos ⟨h.1, h.2⟩,
                  if_neg hs1, if_pos ⟨rfl, rfl, rfl⟩]
              rw [hesc, parseJString_u2029, parseJString_closing]
              rfl
            · have hblk : ∀ x ∈ [b, c1, c2], ¬ x = 34 ∧ ¬ x = 92 := by
                intro x hx
                simp at hx
                rcases hx with rfl | rfl | rfl <;> exact ⟨by omega, by omega⟩
              have hesc : escBytes [b, c1, c2] = [b, c1, c2] := by
                conv_lhs => rw [escBytes]
                rw [if_neg hb, if_neg h2, if_pos h3, if_pos ⟨h.1, h.2⟩,
                  if_neg hs1, if_neg hs2]
              rw [hesc, parseJString_raw_append [b, c1, c2] hblk, parseJString_closing]
              rfl
        · rw [isUtf8, if_neg hb, if_neg h2, if_neg h3] at h
          exact absurd h (by simp)
  | b :: c1 :: c2 :: c3 :: tl, rest, h => by
    by_cases hb : b < 128
    · have hrec : isUtf8 (c1 :: c2 :: c3 :: tl) = true := by
        rw [isUtf8, if_pos hb] at h; exact h
      have ih := parseJString_escBytes (c1 :: c2 :: c3 :: tl) rest hrec
      have hesc : escBytes (b :: c1 :: c2 :: c3 :: tl) =
          escByte b ++ escBytes (c1 :: c2 :: c3 :: tl) := by
        conv_lhs => rw [escBytes]
        rw [if_pos hb]
      rw [hesc, List.append_assoc, parseJString_escByte b hb, ih]
      rfl
    · by_cases h2 : 194 ≤ b ∧ b ≤ 223
      · rw [isUtf8, if_neg hb, if_pos h2, Bool.and_eq_true] at h
        have hcb := isCont_bounds c1 h.1
        have ih := parseJString_escBytes (c2 :: c3 :: tl) rest h.2
        have hblk : ∀ x ∈ [b, c1], ¬ x = 34 ∧ ¬ x = 92 := by
          intro x hx
          simp at hx
          rcases hx with rfl | rfl <;> exact ⟨by omega, by omega⟩
        have hesc : escBytes (b :: c1 :: c2 :: c3 :: tl) =
            b :: c1 :: escBytes (c2 :: c3 :: tl) := by
          conv_lhs => rw [escBytes]
          rw [if_neg hb, if_pos h2, if_pos h.1]
        rw [hesc,
          show (b :: c1 :: escBytes (c2 :: c3 :: tl)) ++ (34 :: rest) =
            [b, c1] ++ (escBytes (c2 :: c3 :: tl) ++ (34 :: rest)) by simp,
          parseJString_raw_append [b, c1] hblk, ih]
        rfl
      · by_cases h3 : 224 ≤ b ∧ b ≤ 239
        · rw [isUtf8, if_neg hb, if_neg h2, if_pos h3, Bool.and_eq_true,
            Bool.and_eq_true] at h
          have hcb1 := accept2_bounds b c1 h.1.1
          have hcb2 := isCont_bounds c2 h.1.2
          have ih := parseJString_escBytes (c3 :: tl) rest h.2
          by_cases hs1 : b = 226 ∧ c1 = 128 ∧ c2 = 168
          · obtain ⟨rfl, rfl, rfl⟩ := hs1
            have hesc : escBytes (226 :: 128 :: 168 :: c3 :: tl) =
                u2028Esc ++ escBytes (c3 :: tl) := by
              conv_lhs => rw [escBytes]
              rw [if_neg hb, if_neg h2, if_pos h3, if_pos ⟨h.1.1, h.1.2⟩,
                if_pos ⟨rfl, rfl, rfl⟩]
            rw [hesc, List.append_assoc, parseJString_u2028, ih]
            rfl
          · by_cases hs2 : b = 226 ∧ c1 = 128 ∧ c2 = 169
            · obtain ⟨rfl, rfl, rfl⟩ := hs2
              have hesc : escBytes (226 :: 128 :: 169 :: c3 :: tl) =
                  u2029Esc ++ escBytes (c3 :: tl) := by
                conv_lhs => rw [escBytes]
                rw [if_neg hb, if_neg h2, if_pos h3, if_pos ⟨h.1.1, h.1.2⟩,
                  if_neg hs1, if_pos ⟨rfl, rfl, rfl⟩]
              rw [hesc, List.append_assoc, parseJString_u2029, ih]
              rfl
            · have hblk : ∀ x ∈ [b, c1, c2], ¬ x = 34 ∧ ¬ x = 92 := by
                intro x hx
                simp at hx
                rcases hx with rfl | rfl | rfl <;> exact ⟨by omega, by omega⟩
              have hesc : escBytes (b :: c1 :: c2 :: c3 :: tl) =
                  b :: c1 :: c2 :: escBytes (c3 :: tl) := by
                conv_lhs => rw [escBytes]
                rw [if_neg hb, if_neg h2, if_pos h3, if_pos ⟨h.1.1, h.1.2⟩,
                  if_neg hs1, if_neg hs2]
              rw [hesc,
                show (b :: c1 :: c2 :: escBytes (c3 :: tl)) ++ (34 :: rest) =
                  [b, c1, c2] ++ (escBytes (c3 :: tl) ++ (34 :: rest)) by simp,
                parseJString_raw_append [b, c1, c2] hblk, ih]
              rfl
        · by_cases h4 : 240 ≤ b ∧ b ≤ 244
          · rw [isUtf8, if_neg hb, if_neg h2, if_neg h3, if_pos h4, Bool.and_eq_true,
              Bool.and_eq_true, Bool.and_eq_true] at h
            have hcb1 := accept2_bounds b c1 h.1.1.1
            have hcb2 := isCont_bounds c2 h.1.1.2
            have hcb3 := isCont_bounds c3 h.1.2
            have ih := parseJString_escBytes tl rest h.2
            have hblk : ∀ x ∈ [b, c1, c2, c3], ¬ x = 34 ∧ ¬ x = 92 := by
              intro x hx
              simp at hx
              rcases hx with rfl | rfl | rfl | rfl <;> exact ⟨by omega, by omega⟩
            have hesc : escBytes (b :: c1 :: c2 :: c3 :: tl) =
                b :: c1 :: c2 :: c3 :: escBytes tl := by
              conv_lhs => rw [escBytes]
              rw [if_neg hb, if_neg h2, if_neg h3, if_pos h4,
                if_pos ⟨h.1.1.1, h.1.1.2, h.1.2⟩]
            rw [hesc,
              show (b :: c1 :: c2 :: c3 :: escBytes tl) ++ (34 :: rest) =
                [b, c1, c2, c3] ++ (escBytes tl ++ (34 :: rest)) by simp,
              parseJString_raw_append [b, c1, c2, c3] hblk, ih]
            rfl
          · rw [isUtf8, if_neg hb, if_neg h2, if_neg h3, if_neg h4] at h
            exact absurd h (by simp)


theorem replEsc_valid : ∀ y ∈ replEsc, y < 256 := by decide

theorem u2028Esc_valid : ∀ y ∈ u2028Esc, y < 256 := by decide

theorem u2029Esc_valid : ∀ y ∈ u2029Esc, y < 256 := by decide

theorem escBytes_valid : ∀ s : List Nat, ∀ x ∈ escBytes s, x < 256
  | [] => by simp [escBytes]
  | [b] => by
    intro x hx
    rw [escBytes] at hx
    split at hx
    · exact escByte_valid b (by omega) x hx
    · exact replEsc_valid x hx
  | [b, c1] => by
    intro x hx
    rw [escBytes] at hx
    split at hx
    · rcases List.mem_append.mp hx with h | h
      · exact escByte_valid b (by omega) x h
      · exact escBytes_valid [c1] x h
    · split at hx
      · split at hx
        · rename_i h2 hc
          have hcb := isCont_bounds c1 hc
          simp at hx
          rcases hx with rfl | rfl <;> omega
        · rcases List.mem_append.mp hx with h | h
          · exact replEsc_valid x h
          · exact escBytes_valid [c1] x h
      · rcases List.mem_append.mp hx with h | h
        · exact replEsc_valid x h
        · exact escBytes_valid [c1] x h
  | [b, c1, c2] => by
    intro x hx
    rw [escBytes] at hx
    split at hx
    · rcases List.mem_append.mp hx with h | h
      · exact escByte_valid b (by omega) x h
      · exact escBytes_valid [c1, c2] x h
    · split at hx
      · split at hx
        · rename_i h2 hc
          have hcb := isCont_bounds c1 hc
          simp at hx
          rcases hx with rfl | rfl | h
          · omega
          · omega
          · exact escBytes_valid [c2] x h
        · rcases List.mem_append.mp hx with h | h
          · exact replEsc_valid x h
          · exact escBytes_valid [c1, c2] x h
      · split at hx
        · split at hx
          · split at hx
            · exact u2028Esc_valid x hx
            · split at hx
              · exact u2029Esc_valid x hx
              · rename_i h3 hac hs1 hs2
                have hcb1 := accept2_bounds b c1 hac.1
                have hcb2 := isCont_bounds c2 hac.2
                simp at hx
                rcases hx with rfl | rfl | rfl <;> omega
          · rcases List.mem_append.mp hx with h | h
            · exact replEsc_valid x h
            · exact escBytes_valid [c1, c2] x h
        · rcases List.mem_append.mp hx with h | h
          · exact replEsc_valid x h
          · exact escBytes_valid [c1, c2] x h
  | b :: c1 :: c2 :: c3 :: tl => by
    intro x hx
    rw [escBytes] at hx
    split at hx
    · rcases List.mem_append.mp hx with h | h
      · exact escByte_valid b (by omega) x h
      · exact escBytes_valid (c1 :: c2 :: c3 :: tl) x h
    · split at hx
      · split at hx
        · rename_i h2 hc
          have hcb := isCont_bounds c1 hc
          simp at hx
          rcases hx with rfl | rfl | h
          · omega
          · omega
          · exact escBytes_valid (c2 :: c3 :: tl) x h
        · rcases List.mem_append.mp hx with h | h
          · exact replEsc_valid x h
          · exact escBytes_valid (c1 :: c2 :: c3 :: tl) x h
      · split at hx
        · split at hx
          · split at hx
            · rcases List.mem_append.mp hx with h | h
              · exact u2028Esc_valid x h
              · exact escBytes_valid (c3 :: tl) x h
            · split at hx
              · rcases List.mem_append.mp hx with h | h
                · exact u2029Esc_valid x h
                · exact escBytes_valid (c3 :: tl) x h
              · rename_i h3 hac hs1 hs2
                have hcb1 := accept2_bounds b c1 hac.1
                have hcb2 := isCont_bounds c2 hac.2
                simp at hx
                rcases hx with rfl | rfl | rfl | h
                · omega
                · omega
                · omega
                · exact escBytes_valid (c3 :: tl) x h
          · rcases List.mem_append.mp hx with h | h
            · exact replEsc_valid x h
            · exact escBytes_valid (c1 :: c2 :: c3 :: tl) x h
        · split at hx
          · split at hx
            · rename_i h4 hac
              have hcb1 := accept2_bounds b c1 hac.1
              have hcb2 := isCont_bounds c2 hac.2.1
              have hcb3 := isCont_bounds c3 hac.2.2
              simp at hx
              rcases hx with rfl | rfl | rfl | rfl | h
              · omega
              · omega
              · omega
              · omega
              · exact escBytes_valid tl x h
            · rcases List.mem_append.mp hx with h | h
              · exact replEsc_valid x h
              · exact escBytes_valid (c1 :: c2 :: c3 :: tl) x h
          · rcases List.mem_append.mp hx with h | h
            · exact replEsc_valid x h
            · exact escBytes_valid (c1 :: c2 :: c3 :: tl) x h


theorem serializeAuth_valid (host token : List Nat) :
    ∀ b ∈ serializeAuth host token, b < 256 := by
  intro b hb
  rw [serializeAuth] at hb
  simp only [List.mem_append, List.mem_cons] at hb
  rcases hb with h | h | h | h | h | h | h
  · exact (by decide : ∀ x ∈ strBytes "\x7b\"Authorization\":\"", x < 256) b h
  · exact escBytes_valid token b h
  · omega
  · exact (by decide : ∀ x ∈ strBytes ",\"host\":\"", x < 256) b h
  · exact escBytes_valid host b h
  · omega
  · simp at h; omega

theorem parseAuth_serializeAuth (host token : List Nat)
    (hh : isUtf8 host = true) (ht : isUtf8 token = true) :
    parseAuth (serializeAuth host token) = some (host, token) := by
  have h1 : dropLit (strBytes "\x7b\"Authorization\":\"") (serializeAuth host token) =
      some (escBytes token ++
        (34 :: (strBytes ",\"host\":\"" ++ (escBytes host ++ (34 :: [125]))))) := by
    rw [serializeAuth]; exact dropLit_append _ _
  have h2 := parseJString_escBytes token
    (strBytes ",\"host\":\"" ++ (escBytes host ++ (34 :: [125]))) ht
  have h3 : dropLit (strBytes ",\"host\":\"")
      (strBytes ",\"host\":\"" ++ (escBytes host ++ (34 :: [125]))) =
      some (escBytes host ++ (34 :: [125])) := dropLit_append _ _
  have h4 := parseJString_escBytes host [125] hh
  rw [parseAuth]
  simp only [h1, h2, h3, h4]

/-- Claim C8, as stated, is false: Go's `json.Marshal` decodes the
credential as UTF-8 and replaces an invalid byte with the escape of the
replacement character, so for the credential consisting of the single
byte 0xff the decoded sub-protocol string carries the replacement
character's bytes, not the byte that was supplied — the round-trip is
lossy on that input. -/
theorem C8_counterexample :
    decodeSubprotocol (subprotocolCode (strBytes "h.example") [255]) =
      some (strBytes "h.example", [239, 191, 189]) ∧
    ¬ decodeSubprotocol (subprotocolCode (strBytes "h.example") [255]) =
      some (strBytes "h.example", [255]) := by
  exact ⟨by decide, by decide⟩

/-- Claim C8 (amended): for every hostname and credential byte string
the sub-protocol negotiation string the code builds (padded URL base64
with the `=` characters removed) equals `header-` followed by the
unpadded base64url encoding of the canonical JSON serialization of the
two-entry map; and whenever the hostname and the credential are
well-formed UTF-8 — so the encoder substitutes nothing — the string
round-trips: stripping the tag, base64url decoding and parsing the
JSON recovers exactly the pair as supplied.  (For input containing
invalid UTF-8 the encoder writes the replacement character and the
round-trip is lossy, see the counterexample.) -/
theorem C8_amended (host token : List Nat) :
    subprotocolCode host token = subprotocolSpec host token ∧
    (isUtf8 host = true → isUtf8 token = true →
      decodeSubprotocol (subprotocolCode host token) = some (host, token)) := by
  have henc : stripEq (b64EncPad (serializeAuth host token)) =
      b64EncRaw (serializeAuth host token) := stripEq_encPad _
  constructor
  · rw [subprotocolCode, subprotocolSpec, henc]
  · intro hh ht
    have hpre := isPrefixOf_self_append "header-".data
      (b64EncRaw (serializeAuth host token))
    have h7 : ("header-".data).length = 7 := by decide
    have hdrop : ("header-".data ++ b64EncRaw (serializeAuth host token)).drop 7 =
        b64EncRaw (serializeAuth host token) := by
      rw [← h7]
      exact List.drop_left _ _
    rw [subprotocolCode, henc, decodeSubprotocol]
    simp only [hpre, if_true, hdrop,
      b64Dec_encRaw _ (serializeAuth_valid host token)]
    exact parseAuth_serializeAuth host token hh ht

theorem C8_amended_witness :
    subprotocolCode (strBytes "h.example") [116, 226, 128, 168, 207, 128] =
      subprotocolSpec (strBytes "h.example") [116, 226, 128, 168, 207, 128] ∧
    decodeSubprotocol (subprotocolCode (strBytes "h.example")
        [116, 226, 128, 168, 207, 128]) =
      some (strBytes "h.example", [116, 226, 128, 168, 207, 128]) :=
  ⟨(C8_amended (strBytes "h.example") [116, 226, 128, 168, 207, 128]).1,
   (C8_amended (strBytes "h.example") [116, 226, 128, 168, 207, 128]).2
     (by decide) (by decide)⟩

end TeamCli
